import Mathlib

/-!
Verification of the offline mutation queue and sync engine of the
rebuild60-tracker repository (src/localdb.ts, src/sync.ts, src/App.tsx).

The TypeScript source is shallowly embedded: the Dexie `pendingOps` table
becomes a list of `PendingOp` records plus an auto-increment counter, the
remote relational store (Supabase) becomes a record of row lists with
primary-key semantics on `id`, and `processOp` / the `tick` drain loop of
`startAutoSync` become pure functions.  Remote-transport outcomes (a
`processOp` call resolving or throwing) are abstracted as an `Exec`
parameter of the drain loop, since they depend on the network environment;
the pure, no-transport-failure executor is recovered from `processOp`.
-/

namespace Rebuild60

/-- Operation names.  The closed set mirrors `PendingOpName` in
src/localdb.ts; `unknown` stands for any other runtime string reaching the
`default` branch of `processOp` in src/sync.ts (the queue is dynamically
typed storage, and e.g. src/App.tsx line 2116 enqueues the name
`delete_template`, which is outside the closed set). -/
inductive OpName where
  | upsert_daily
  | upsert_nutrition
  | insert_zone2
  | create_workout
  | insert_exercise
  | insert_set
  | create_template
  | insert_template_exercise
  | update_template_exercise
  | delete_session
  | delete_set
  | renumber_sets
  | delete_exercise
  | reorder_exercises
  | unknown (name : String)
deriving DecidableEq, Repr

/-- Queue entry status, mirroring `status: "queued" | "retry"` of
`PendingOp` in src/localdb.ts.  (The spec calls the second state
`retrying`; the stored literal in the code is `"retry"`.) -/
inductive OpStatus where
  | queued
  | retry
deriving DecidableEq, Repr

/-- A remote row / row-shaped payload.  Supabase payloads in this app are
JSON objects; the fields the sync protocol ever branches or updates on are
modelled explicitly and everything else is collapsed into `rest`.
`id = none` models a payload without a client-generated primary key (the
server then assigns a hidden fresh key; e.g. the `insert_zone2` payloads
built in src/App.tsx lines 1669-1674 carry no `id`). -/
structure Row where
  id : Option String
  user_id : String
  day_date : String
  session_id : String
  exercise_id : String
  template_id : String
  set_number : Nat
  sort_order : Nat
  rest : String
deriving DecidableEq, Repr

/-- A payload field that is read with `payload?.xs ?? []` followed by an
`Array.isArray` check in src/sync.ts: it can be absent (the `?? []`
default applies), present but not an array (the check throws), or an
array of id strings. -/
inductive PField where
  | absent
  | notArray
  | arr (ids : List String)
deriving DecidableEq, Repr

/-- The untyped `payload: any` of a pending operation, restricted to the
fields src/sync.ts actually reads.  Fields irrelevant to a given op kind
are simply ignored by `processOp`, as in the source. -/
structure Payload where
  row : Row
  set_id : Option String
  exercise_id : Option String
  session_id : Option String
  ordered_set_ids : PField
  ordered_exercise_ids : PField
deriving DecidableEq, Repr

/-- JavaScript truthiness of an optional string id, as used by the
`if (!set_id) throw ...` checks in src/sync.ts: `undefined`/`null`
(here `none`) and the empty string are falsy.  Returns the id when
truthy. -/
def truthy : Option String → Option String
  | none => none
  | some s => if s.isEmpty then none else some s

/-- Evaluation of `payload?.field ?? []` followed by `Array.isArray`:
`none` means the check threw. -/
def coerceIds : PField → Option (List String)
  | .absent => some []
  | .notArray => none
  | .arr ids => some ids

/-- State of the external relational store (Supabase), one row list per
table touched by src/sync.ts.  Each table enforces a primary key on `id`
(src/sync.ts deletes and upserts rows by `id`). -/
structure Remote where
  daily_logs : List Row
  nutrition_logs : List Row
  zone2_sessions : List Row
  workout_sessions : List Row
  workout_exercises : List Row
  workout_sets : List Row
  workout_templates : List Row
  workout_template_exercises : List Row
deriving DecidableEq, Repr

/-- One remote-store call issued by `processOp`, in issue order.  This is
the trace against which call-ordering claims (cascade order, renumber
order) are stated. -/
inductive RCall where
  | upsert (table : String) (onConflict : String) (r : Row)
  | insert (table : String) (r : Row)
  | deleteEq (table : String) (column : String) (value : String)
  | deleteIn (table : String) (column : String) (values : List String)
  | update (table : String) (column : String) (value : Nat) (id : String)
  | selectExercisesBySession (session_id : String)
deriving DecidableEq, Repr

/-- SQL `insert` into a table whose primary key is `id`: a duplicate key
is rejected by the store (supabase-js reports this in the returned
`error` object, which src/sync.ts ignores for plain inserts) and writes
nothing; a payload without `id` gets a server-generated key and always
appends. -/
def insertRows (t : List Row) (r : Row) : List Row :=
  match r.id with
  | some i => if t.any (fun x => x.id = some i) then t else t ++ [r]
  | none => t ++ [r]

/-- SQL upsert with an `onConflict` key: replace the conflicting row if
one exists, else append.  `key x r` decides whether existing row `x`
conflicts with the payload `r`. -/
def upsertRows (key : Row → Row → Bool) (t : List Row) (r : Row) : List Row :=
  if t.any (fun x => key x r) then t.map (fun x => if key x r then r else x) else t ++ [r]

/-- Conflict key `user_id,day_date` (the `onConflict` option of
`upsert_daily` / `upsert_nutrition` in src/sync.ts). -/
def sameUserDay (x r : Row) : Bool :=
  x.user_id = r.user_id && x.day_date = r.day_date

/-- Conflict key `id` (the `onConflict` option of
`update_template_exercise`); a payload without an id conflicts with
nothing. -/
def sameId (x r : Row) : Bool :=
  match r.id with
  | some i => x.id = some i
  | none => false

/-- A `delete().eq("id", v)` call. -/
def deleteEqId (t : List Row) (v : String) : List Row :=
  t.filter (fun x => x.id ≠ some v)

/-- A `delete().eq("exercise_id", v)` call. -/
def deleteEqExercise (t : List Row) (v : String) : List Row :=
  t.filter (fun x => x.exercise_id ≠ v)

/-- A `delete().eq("session_id", v)` call. -/
def deleteEqSession (t : List Row) (v : String) : List Row :=
  t.filter (fun x => x.session_id ≠ v)

/-- A `delete().in("exercise_id", vs)` call. -/
def deleteInExercise (t : List Row) (vs : List String) : List Row :=
  t.filter (fun x => !vs.contains x.exercise_id)

/-- The client-side update loop shared by `renumber_sets` and
`reorder_exercises` in src/sync.ts: for each id in the list, in list
order, issue `update(g-assignment at the current index).eq("id", id)`.
`g i` is the absolute field assignment performed at loop index `i`. -/
def applyOrdFrom (g : Nat → Row → Row) (i : Nat) : List String → List Row → List Row
  | [], t => t
  | v :: vs, t => applyOrdFrom g (i + 1) vs (t.map (fun r => if r.id = some v then g i r else r))

/-- Pointwise effect of `applyOrdFrom` on a single row (the loop is a
composition of per-row maps). -/
def ordFun (g : Nat → Row → Row) (i : Nat) : List String → Row → Row
  | [], r => r
  | v :: vs, r => ordFun g (i + 1) vs (if r.id = some v then g i r else r)

/-- Assignment of `renumber_sets` at loop index `i`:
`update({ set_number: i + 1 })`. -/
def gSetNumber (i : Nat) (r : Row) : Row :=
  { r with set_number := i + 1 }

/-- Assignment of `reorder_exercises` at loop index `i`:
`update({ sort_order: i })`. -/
def gSortOrder (i : Nat) (r : Row) : Row :=
  { r with sort_order := i }

/-- Trace of the per-id update calls of `renumber_sets`, in list order. -/
def renumberCalls (i : Nat) : List String → List RCall
  | [] => []
  | v :: vs => RCall.update "workout_sets" "set_number" (i + 1) v :: renumberCalls (i + 1) vs

/-- Trace of the per-id update calls of `reorder_exercises`, in list
order. -/
def reorderCalls (i : Nat) : List String → List RCall
  | [] => []
  | v :: vs => RCall.update "workout_exercises" "sort_order" i v :: reorderCalls (i + 1) vs

/-- The dependent exercise ids discovered by the `delete_session` case of
`processOp`: `select("id").eq("session_id", sid)` over the remote
exercises table, keeping the rows' primary keys.  (Rows inserted through
the queue always carry a client id; a hypothetical server-keyed row is
modelled as `id = none` and contributes nothing here.) -/
def sessionExIds (sid : String) (s : Remote) : List String :=
  (s.workout_exercises.filter (fun r => r.session_id = sid)).filterMap (fun r => r.id)

/-- Remote-store effect of the `delete_session` cascade of src/sync.ts
lines 96-121: delete the discovered exercises' sets (only when some
exercise was found, mirroring the `if (exIds.length > 0)` guard), then
the session's exercises, then the session row. -/
def delSessionRemote (sid : String) (s : Remote) : Remote :=
  let exIds := sessionExIds sid s
  let s1 :=
    if exIds.length > 0 then
      { s with workout_sets := deleteInExercise s.workout_sets exIds }
    else s
  let s2 := { s1 with workout_exercises := deleteEqSession s1.workout_exercises sid }
  { s2 with workout_sessions := deleteEqId s2.workout_sessions sid }

/-- Result of one `processOp` invocation: `err = some m` means the call
threw (synchronously or via a rejected supabase error that the code
checks, message `m`); `remote` is the remote-store state afterwards;
`calls` is the ordered trace of remote calls actually issued. -/
structure OpResult where
  err : Option String
  remote : Remote
  calls : List RCall
deriving DecidableEq, Repr

/-- Shallow embedding of `processOp` from src/sync.ts lines 20-127,
case by case, assuming the remote transport itself does not fail (so the
only throws are the structural payload checks and the `default` branch;
the error results that supabase-js returns for ignored plain inserts do
not throw in the source and hence do not throw here). -/
def processOp (op : OpName) (p : Payload) (s : Remote) : OpResult :=
  match op with
  | .upsert_daily =>
      ⟨none, { s with daily_logs := upsertRows sameUserDay s.daily_logs p.row },
        [RCall.upsert "daily_logs" "user_id,day_date" p.row]⟩
  | .upsert_nutrition =>
      ⟨none, { s with nutrition_logs := upsertRows sameUserDay s.nutrition_logs p.row },
        [RCall.upsert "nutrition_logs" "user_id,day_date" p.row]⟩
  | .insert_zone2 =>
      ⟨none, { s with zone2_sessions := insertRows s.zone2_sessions p.row },
        [RCall.insert "zone2_sessions" p.row]⟩
  | .create_workout =>
      ⟨none, { s with workout_sessions := insertRows s.workout_sessions p.row },
        [RCall.insert "workout_sessions" p.row]⟩
  | .insert_exercise =>
      ⟨none, { s with workout_exercises := insertRows s.workout_exercises p.row },
        [RCall.insert "workout_exercises" p.row]⟩
  | .insert_set =>
      ⟨none, { s with workout_sets := insertRows s.workout_sets p.row },
        [RCall.insert "workout_sets" p.row]⟩
  | .create_template =>
      ⟨none, { s with workout_templates := insertRows s.workout_templates p.row },
        [RCall.insert "workout_templates" p.row]⟩
  | .insert_template_exercise =>
      ⟨none,
        { s with workout_template_exercises := insertRows s.workout_template_exercises p.row },
        [RCall.insert "workout_template_exercises" p.row]⟩
  | .update_template_exercise =>
      ⟨none,
        { s with workout_template_exercises :=
            upsertRows sameId s.workout_template_exercises p.row },
        [RCall.upsert "workout_template_exercises" "id" p.row]⟩
  | .delete_set =>
      match truthy p.set_id with
      | none => ⟨some "delete_set missing set_id", s, []⟩
      | some i =>
          ⟨none, { s with workout_sets := deleteEqId s.workout_sets i },
            [RCall.deleteEq "workout_sets" "id" i]⟩
  | .renumber_sets =>
      match coerceIds p.ordered_set_ids with
      | none => ⟨some "renumber_sets ordered_set_ids must be array", s, []⟩
      | some ids =>
          ⟨none, { s with workout_sets := applyOrdFrom gSetNumber 0 ids s.workout_sets },
            renumberCalls 0 ids⟩
  | .delete_exercise =>
      match truthy p.exercise_id with
      | none => ⟨some "delete_exercise missing exercise_id", s, []⟩
      | some i =>
          ⟨none,
            { s with workout_sets := deleteEqExercise s.workout_sets i,
                     workout_exercises := deleteEqId s.workout_exercises i },
            [RCall.deleteEq "workout_sets" "exercise_id" i,
             RCall.deleteEq "workout_exercises" "id" i]⟩
  | .reorder_exercises =>
      match coerceIds p.ordered_exercise_ids with
      | none => ⟨some "reorder_exercises ordered_exercise_ids must be array", s, []⟩
      | some ids =>
          ⟨none,
            { s with workout_exercises := applyOrdFrom gSortOrder 0 ids s.workout_exercises },
            reorderCalls 0 ids⟩
  | .delete_session =>
      match truthy p.session_id with
      | none => ⟨some "delete_session missing session_id", s, []⟩
      | some sid =>
          ⟨none, delSessionRemote sid s,
            RCall.selectExercisesBySession sid ::
              ((if (sessionExIds sid s).length > 0 then
                  [RCall.deleteIn "workout_sets" "exercise_id" (sessionExIds sid s)]
                else []) ++
                [RCall.deleteEq "workout_exercises" "session_id" sid,
                 RCall.deleteEq "workout_sessions" "id" sid])⟩
  | .unknown name => ⟨some ("Unknown op: " ++ name), s, []⟩

/-- Guard of the idempotent-replay property: the insert/upsert kinds that
are keyed by the row's primary key must actually carry the
client-generated id in the payload.  (The workout, set, exercise and
template payloads built in src/App.tsx do; the `insert_zone2` payloads do
not carry an id and are outside this guard.)  All other kinds carry their
ids in dedicated payload fields and need no condition. -/
def carriesClientId : OpName → Payload → Prop :=
  fun op p =>
    match op with
    | .insert_zone2 | .create_workout | .insert_exercise | .insert_set
    | .create_template | .insert_template_exercise | .update_template_exercise =>
        p.row.id ≠ none
    | _ => True

/-- A record of the Dexie `pendingOps` table, mirroring `PendingOp` in
src/localdb.ts.  `id` is `none` before the table assigns the
auto-increment key (the `id?: number` field of the source type). -/
structure PendingOp where
  id : Option Nat
  createdAt : Nat
  op : OpName
  payload : Payload
  status : OpStatus
  lastError : Option String
deriving DecidableEq, Repr

/-- The `pendingOps` Dexie table (`"++id, createdAt, op, status"` in
src/localdb.ts): rows in insertion order plus the auto-increment key
generator, which IndexedDB never rewinds, even after deletes. -/
structure PendingTable where
  rows : List PendingOp
  nextId : Nat
deriving DecidableEq, Repr

/-- Dexie `pendingOps.add`: assigns the next auto-increment key and
appends. -/
def addOp (t : PendingTable) (p : PendingOp) : PendingTable :=
  { rows := t.rows ++ [{ p with id := some t.nextId }], nextId := t.nextId + 1 }

/-- Key-generator well-formedness of the table: every assigned id is
below the generator. -/
def wfTable (t : PendingTable) : Prop :=
  ∀ r ∈ t.rows, ∀ j : Nat, r.id = some j → j < t.nextId

/-- The `enqueue` function of src/sync.ts lines 11-18: add a row with
`createdAt = Date.now()` (passed as `now`), the given op and payload, and
`status: "queued"`. -/
def enqueue (now : Nat) (op : OpName) (payload : Payload) (t : PendingTable) : PendingTable :=
  addOp t { id := none, createdAt := now, op := op, payload := payload,
            status := OpStatus.queued, lastError := none }

/-- Iteration order of Dexie `pendingOps.orderBy("createdAt")`: rows are
returned in `createdAt` index order, and entries with equal index value
come in primary-key order, so the sort key is the pair
`(createdAt, id)`. -/
def leKey (a b : PendingOp) : Prop :=
  a.createdAt < b.createdAt ∨ (a.createdAt = b.createdAt ∧ a.id.getD 0 ≤ b.id.getD 0)

instance : DecidableRel leKey := fun a b => by
  unfold leKey; infer_instance

instance : IsTotal PendingOp leKey := by
  constructor
  intro a b
  unfold leKey
  rcases Nat.lt_trichotomy a.createdAt b.createdAt with h | h | h
  · exact Or.inl (Or.inl h)
  · rcases Nat.le_total (a.id.getD 0) (b.id.getD 0) with h2 | h2
    · exact Or.inl (Or.inr ⟨h, h2⟩)
    · exact Or.inr (Or.inr ⟨h.symm, h2⟩)
  · exact Or.inr (Or.inl h)

instance : IsTrans PendingOp leKey := by
  constructor
  intro a b c hab hbc
  unfold leKey at *
  rcases hab with h1 | ⟨h1, h1'⟩
  · rcases hbc with h2 | ⟨h2, _⟩
    · exact Or.inl (h1.trans h2)
    · exact Or.inl (h2 ▸ h1)
  · rcases hbc with h2 | ⟨h2, h2'⟩
    · exact Or.inl (h1 ▸ h2)
    · exact Or.inr ⟨h1.trans h2, h1'.trans h2'⟩

/-- The snapshot `await localdb.pendingOps.orderBy("createdAt").toArray()`
of src/sync.ts line 143. -/
def sortPending (l : List PendingOp) : List PendingOp :=
  List.insertionSort leKey l

/-- Observable events of one drain pass, in occurrence order: an item
being dispatched to `processOp`, a queue row being deleted on success,
a queue row being marked for retry on failure. -/
inductive Event where
  | dispatch (item : PendingOp)
  | deleted (id : Nat)
  | markedRetry (id : Nat)
deriving DecidableEq, Repr

/-- Outcome environment of one drain pass: what `await processOp(op,
payload)` does for each dispatched operation — `none` if it resolves,
`some m` if it throws with message `m` (src/sync.ts catches the throw and
stores `e?.message ?? String(e)`).  The outcome is a parameter because it
depends on the remote transport; `pureExec` below is the
no-transport-failure instance. -/
def Exec : Type :=
  OpName → Payload → Option String

/-- The remote store with every table empty. -/
def emptyRemote : Remote :=
  ⟨[], [], [], [], [], [], [], []⟩

/-- The executor when every remote call succeeds at the transport level:
exactly the throws of the pure `processOp` model (which are independent
of the remote state). -/
def pureExec : Exec :=
  fun op p => (processOp op p emptyRemote).err

/-- Effect of one loop iteration of src/sync.ts lines 152-167 on the
`pendingOps` table: on success `pendingOps.delete(item.id)`, on failure
`pendingOps.update(item.id, { status: "retry", lastError: m })`, in both
cases only when `item.id != null`. -/
def stepTable (res : Option String) (it : PendingOp) (table : List PendingOp) :
    List PendingOp :=
  match it.id, res with
  | some i, none => table.filter (fun p => p.id ≠ some i)
  | some i, some m =>
      table.map (fun p =>
        if p.id = some i then { p with status := OpStatus.retry, lastError := some m } else p)
  | none, _ => table

/-- Events emitted by one loop iteration: the dispatch itself, then the
delete or retry-mark keyed by the item's id. -/
def stepEvents (res : Option String) (it : PendingOp) : List Event :=
  Event.dispatch it ::
    match it.id, res with
    | some i, none => [Event.deleted i]
    | some i, some _ => [Event.markedRetry i]
    | none, _ => []

/-- The `for (const item of items)` drain loop of src/sync.ts lines
150-167, run over the snapshot `items` against the live table: returns
the final table, the `failed` counter, and the event trace.  A failure
never stops the loop (`continue` — "poison-pill safe"). -/
def drainLoop (exec : Exec) :
    List PendingOp → List PendingOp → List PendingOp × Nat × List Event
  | table, [] => (table, 0, [])
  | table, it :: rest =>
      let r := exec it.op it.payload
      let out := drainLoop exec (stepTable r it table) rest
      (out.1, (if r.isSome then 1 else 0) + out.2.1, stepEvents r it ++ out.2.2)

/-- Result of one `tick` of `startAutoSync`: the table afterwards, the
last status string reported through `setStatus` (`none` when `tick`
returned before reporting, i.e. on the `stopped` guard), and the event
trace of the pass. -/
structure TickResult where
  table : List PendingOp
  status : Option String
  events : List Event
deriving DecidableEq, Repr

/-- The `tick` function of src/sync.ts lines 132-174: return if stopped;
report `"Offline/retrying"` and return if offline; otherwise snapshot the
queue in `createdAt` order, report `"Synced"` if it is empty, else drain
it and report the aggregate status.  Note the only guards before a drain
starts are `stopped` and `navigator.onLine` — the function keeps no
currently-draining flag. -/
def tick (exec : Exec) (stopped online : Bool) (table : List PendingOp) : TickResult :=
  if stopped then ⟨table, none, []⟩
  else if !online then ⟨table, some "Offline/retrying", []⟩
  else
    let items := sortPending table
    if items.length = 0 then ⟨table, some "Synced", []⟩
    else
      let out := drainLoop exec table items
      ⟨out.1,
        some (if out.2.1 = 0 then "Synced"
              else "Synced (with " ++ toString out.2.1 ++ " retrying)"),
        out.2.2⟩

/-- A row of the local `localSets` mirror table (src/localdb.ts
`LocalWorkoutSet`); fields not read by the delete/renumber path are
collapsed into `rest`. -/
structure LocalSet where
  id : String
  exercise_id : String
  set_number : Nat
  rest : String
deriving DecidableEq, Repr

/-- Comparison used by `localdb.localSets.where({exercise_id}).sortBy
("set_number")`: ascending `set_number` (a stable sort in the source
engine; `List.insertionSort` is stable the same way). -/
def leSetNum (a b : LocalSet) : Prop :=
  a.set_number ≤ b.set_number

instance : DecidableRel leSetNum := fun a b => by
  unfold leSetNum; infer_instance

instance : IsTotal LocalSet leSetNum :=
  ⟨fun a b => Nat.le_total a.set_number b.set_number⟩

instance : IsTrans LocalSet leSetNum :=
  ⟨fun _ _ _ hab hbc => Nat.le_trans hab hbc⟩

/-- Dexie `localSets.update(id, { set_number: n })`. -/
def updateLocalSetNumber (id : String) (n : Nat) (t : List LocalSet) : List LocalSet :=
  t.map (fun r => if r.id = id then { r with set_number := n } else r)

/-- The renumber loop of `deleteSet` in src/App.tsx lines 1890-1894:
walk the snapshot `remaining` with index `i` and update the row to
`set_number = i + 1` whenever it differs. -/
def renumberLocalFrom (i : Nat) : List LocalSet → List LocalSet → List LocalSet
  | [], t => t
  | s :: rest, t =>
      renumberLocalFrom (i + 1) rest
        (if s.set_number ≠ i + 1 then updateLocalSetNumber s.id (i + 1) t else t)

/-- Pointwise effect of the local renumber loop on a single row. -/
def localRenumFun (i : Nat) : List LocalSet → LocalSet → LocalSet
  | [], r => r
  | s :: rest, r =>
      localRenumFun (i + 1) rest
        (if s.set_number ≠ i + 1 then (if r.id = s.id then { r with set_number := i + 1 } else r)
         else r)

/-- An all-empty-string, all-zero row used as the base for concrete
payloads. -/
def emptyRow : Row :=
  ⟨none, "", "", "", "", "", 0, 0, ""⟩

/-- A payload with every optional field empty. -/
def emptyPayload : Payload :=
  ⟨emptyRow, none, none, none, .absent, .absent⟩

/-- The `{ set_id: setId }` payload enqueued by `deleteSet`
(src/App.tsx line 1888). -/
def payloadDeleteSet (setId : String) : Payload :=
  { emptyPayload with set_id := some setId }

/-- The `{ ordered_set_ids: ids }` payload enqueued by `deleteSet`
(src/App.tsx line 1897). -/
def payloadRenumber (ids : List String) : Payload :=
  { emptyPayload with ordered_set_ids := PField.arr ids }

/-- Result of the local `deleteSet` flow: the `localSets` table
afterwards and the operations appended to the sync queue, in order. -/
structure DeleteSetResult where
  localSets : List LocalSet
  enqueued : List (OpName × Payload)
deriving DecidableEq, Repr

/-- The `deleteSet` function of src/App.tsx lines 1881-1903 (after the
confirm dialog): delete the row, enqueue `delete_set`, snapshot the
exercise's remaining rows sorted by `set_number`, renumber them locally
to `1..N`, and enqueue `renumber_sets` with the snapshot's ids in
order. -/
def deleteSet (setId exerciseId : String) (t : List LocalSet) : DeleteSetResult :=
  let t1 := t.filter (fun r => r.id ≠ setId)
  let remaining := List.insertionSort leSetNum (t1.filter (fun r => r.exercise_id = exerciseId))
  let t2 := renumberLocalFrom 0 remaining t1
  ⟨t2,
    [(OpName.delete_set, payloadDeleteSet setId),
     (OpName.renumber_sets, payloadRenumber (remaining.map (fun r => r.id)))]⟩

/-- One in-flight drain (an invocation of `tick` that has passed the
guards and completed its snapshot read): the snapshot of queue-row ids it
iterates, and how far it has got.  Used to model interleavings of
overlapping `tick` calls: each `await` inside the drain loop is a point
where the event loop can run another trigger or another drain's next
step. -/
structure DrainInst where
  snapshot : List Nat
  pos : Nat
deriving DecidableEq, Repr

/-- Shared state for the interleaving model: the `pendingOps` table
(success path, so only row ids matter), the in-flight drains, and the log
of (drain index, queue-row id) dispatch events. -/
structure ConcState where
  table : List Nat
  drains : List DrainInst
  log : List (Nat × Nat)
deriving DecidableEq, Repr

/-- Scheduler actions: `trigger` is a sync trigger (timer tick, online
event or manual call) entering `tick` and, if the guards pass, reaching
its snapshot read; `step d` is drain `d` completing its next loop
iteration (dispatch plus delete — the success path of src/sync.ts lines
153-155). -/
inductive ConcAction where
  | trigger
  | step (d : Nat)
deriving DecidableEq, Repr

/-- One scheduler step.  The only conditions a trigger checks before
starting a new drain are the `stopped` flag and `navigator.onLine`
(src/sync.ts lines 133-138); there is no currently-draining flag, so a
trigger arriving while other drains are in flight still snapshots the
table and joins them. -/
def concStep (stopped online : Bool) : ConcAction → ConcState → ConcState
  | .trigger, s =>
      if stopped then s
      else if !online then s
      else { s with drains := s.drains ++ [⟨s.table, 0⟩] }
  | .step d, s =>
      match s.drains.get? d with
      | none => s
      | some inst =>
          match inst.snapshot.get? inst.pos with
          | none => s
          | some opId =>
              { table := s.table.filter (fun i => i ≠ opId),
                drains := s.drains.set d ⟨inst.snapshot, inst.pos + 1⟩,
                log := s.log ++ [(d, opId)] }

/-- Run a scheduler script. -/
def runConc (stopped online : Bool) (acts : List ConcAction) (s : ConcState) : ConcState :=
  acts.foldl (fun st a => concStep stopped online a st) s

/-- Whether some queue row was dispatched by two different drains. -/
def processedTwice (log : List (Nat × Nat)) : Bool :=
  log.any (fun e1 => log.any (fun e2 => e1.1 ≠ e2.1 && e1.2 = e2.2))

/-- The subsequence of operations dispatched to `processOp` during a
pass, extracted from the event trace in order. -/
def dispatches (es : List Event) : List PendingOp :=
  es.filterMap (fun e =>
    match e with
    | Event.dispatch p => some p
    | _ => none)

/-- C7: whenever a drain tick runs while the device's connectivity signal
reports offline, the engine reports the offline/retrying status and
returns without consuming the queue: no operation is dispatched to the
remote store (the event trace is empty) and every pending operation, with
all its fields, is left unchanged. -/
theorem c7_offline_tick_noop (exec : Exec) (table : List PendingOp) :
    tick exec false false table = ⟨table, some "Offline/retrying", []⟩ :=
  rfl

/-- C10: a `delete_set` / `delete_exercise` / `delete_session` operation
missing its required id field, a `renumber_sets` / `reorder_exercises`
operation whose id list is not an array, and an op name outside the
closed operation-name set, all make the dispatch function throw
synchronously before issuing any remote call: the result carries the
thrown message, an unchanged remote store, and an empty call trace. -/
theorem c10_structural_errors :
    (∀ (p : Payload) (s : Remote), truthy p.set_id = none →
        processOp OpName.delete_set p s =
          ⟨some "delete_set missing set_id", s, []⟩) ∧
    (∀ (p : Payload) (s : Remote), truthy p.exercise_id = none →
        processOp OpName.delete_exercise p s =
          ⟨some "delete_exercise missing exercise_id", s, []⟩) ∧
    (∀ (p : Payload) (s : Remote), truthy p.session_id = none →
        processOp OpName.delete_session p s =
          ⟨some "delete_session missing session_id", s, []⟩) ∧
    (∀ (p : Payload) (s : Remote), p.ordered_set_ids = PField.notArray →
        processOp OpName.renumber_sets p s =
          ⟨some "renumber_sets ordered_set_ids must be array", s, []⟩) ∧
    (∀ (p : Payload) (s : Remote), p.ordered_exercise_ids = PField.notArray →
        processOp OpName.reorder_exercises p s =
          ⟨some "reorder_exercises ordered_exercise_ids must be array", s, []⟩) ∧
    (∀ (name : String) (p : Payload) (s : Remote),
        processOp (OpName.unknown name) p s =
          ⟨some ("Unknown op: " ++ name), s, []⟩) := by
  refine ⟨?_, ?_, ?_, ?_, ?_, ?_⟩
  · intro p s h
    simp [processOp, h]
  · intro p s h
    simp [processOp, h]
  · intro p s h
    simp [processOp, h]
  · intro p s h
    simp [processOp, coerceIds, h]
  · intro p s h
    simp [processOp, coerceIds, h]
  · intro name p s
    rfl

/-- Witness for C10 at concrete inputs: an empty payload is missing each
required id field, and the unknown op name `delete_template` (which
src/App.tsx line 2116 actually enqueues) hits the default branch. -/
theorem c10_structural_errors_witness :
    truthy emptyPayload.set_id = none ∧
    processOp OpName.delete_set emptyPayload emptyRemote =
      ⟨some "delete_set missing set_id", emptyRemote, []⟩ ∧
    processOp (OpName.unknown "delete_template") emptyPayload emptyRemote =
      ⟨some "Unknown op: delete_template", emptyRemote, []⟩ :=
  ⟨rfl, c10_structural_errors.1 emptyPayload emptyRemote rfl,
    c10_structural_errors.2.2.2.2.2 "delete_template" emptyPayload emptyRemote⟩

/-- C4 fails on the code: there is no re-entrancy guard in
`startAutoSync` (the only checks before a drain starts are the `stopped`
flag and `navigator.onLine`).  Concretely, with one queued row (id 1), a
second trigger arriving while the first drain is in flight is not a
no-op — it starts a second drain over the same snapshot — and the
resulting schedule dispatches queue row 1 from both drains, so an entry
is processed by two concurrent drains. -/
theorem c4_counterexample :
    concStep false true ConcAction.trigger ⟨[1], [⟨[1], 0⟩], []⟩ ≠ ⟨[1], [⟨[1], 0⟩], []⟩ ∧
    (runConc false true
        [ConcAction.trigger, ConcAction.trigger, ConcAction.step 0, ConcAction.step 1]
        ⟨[1], [], []⟩).log = [(0, 1), (1, 1)] ∧
    processedTwice [(0, 1), (1, 1)] = true := by
  refine ⟨?_, rfl, by decide⟩
  decide

/-- C4 as amended: a trigger arriving after teardown (`stopped` set) or
while offline is a no-op, but the code keeps no currently-draining flag,
so a trigger arriving while a drain is in progress starts a second
concurrent drain over the same queue, and a queue entry can be dispatched
by two overlapping drains. -/
theorem c4_no_reentrancy_guard :
    (∀ (online : Bool) (s : ConcState), concStep true online ConcAction.trigger s = s) ∧
    (∀ s : ConcState, concStep false false ConcAction.trigger s = s) ∧
    (runConc false true
        [ConcAction.trigger, ConcAction.trigger, ConcAction.step 0, ConcAction.step 1]
        ⟨[1], [], []⟩).log = [(0, 1), (1, 1)] := by
  refine ⟨fun online s => rfl, fun s => rfl, rfl⟩

/-- C9: `enqueue(kind, payload)` appends exactly one new pending
operation, with status `queued`, `createdAt` equal to the current time
and the fresh auto-increment id, leaves every existing queue entry
unchanged (the old rows are a prefix of the new rows, verbatim), the
fresh id is strictly greater than every previously assigned id, and the
key-generator invariant is preserved. -/
theorem c9_enqueue_appends (now : Nat) (op : OpName) (payload : Payload)
    (t : PendingTable) (hwf : wfTable t) :
    (enqueue now op payload t).rows =
      t.rows ++ [⟨some t.nextId, now, op, payload, OpStatus.queued, none⟩] ∧
    (∀ r ∈ t.rows, ∀ j : Nat, r.id = some j → j < t.nextId) ∧
    wfTable (enqueue now op payload t) := by
  refine ⟨rfl, hwf, ?_⟩
  intro r hr j hj
  simp only [enqueue, addOp, List.mem_append, List.mem_singleton] at hr
  rcases hr with hr | hr
  · exact Nat.lt_succ_of_lt (hwf r hr j hj)
  · subst hr
    simp only at hj
    cases hj
    exact Nat.lt_succ_self _

/-- Witness for C9: enqueueing into a one-row table appends the new row
with the fresh key 1. -/
theorem c9_enqueue_appends_witness :
    wfTable ⟨[⟨some 0, 5, OpName.upsert_daily, emptyPayload, OpStatus.queued, none⟩], 1⟩ ∧
    (enqueue 7 OpName.insert_set emptyPayload
        ⟨[⟨some 0, 5, OpName.upsert_daily, emptyPayload, OpStatus.queued, none⟩], 1⟩).rows =
      [⟨some 0, 5, OpName.upsert_daily, emptyPayload, OpStatus.queued, none⟩] ++
        [⟨some 1, 7, OpName.insert_set, emptyPayload, OpStatus.queued, none⟩] := by
  have hwf : wfTable
      ⟨[⟨some 0, 5, OpName.upsert_daily, emptyPayload, OpStatus.queued, none⟩], 1⟩ := by
    intro r hr j hj
    rw [List.mem_singleton] at hr
    subst hr
    simp only at hj
    cases hj
    exact Nat.lt_succ_self 0
  exact ⟨hwf, (c9_enqueue_appends 7 OpName.insert_set emptyPayload _ hwf).1⟩

/-- Unfolding equation for the empty drain loop. -/
theorem drainLoop_nil (exec : Exec) (table : List PendingOp) :
    drainLoop exec table [] = (table, 0, []) :=
  rfl

/-- Unfolding equation for one drain-loop iteration. -/
theorem drainLoop_cons (exec : Exec) (it : PendingOp) (rest table : List PendingOp) :
    drainLoop exec table (it :: rest) =
      ((drainLoop exec (stepTable (exec it.op it.payload) it table) rest).1,
       (if (exec it.op it.payload).isSome then 1 else 0) +
         (drainLoop exec (stepTable (exec it.op it.payload) it table) rest).2.1,
       stepEvents (exec it.op it.payload) it ++
         (drainLoop exec (stepTable (exec it.op it.payload) it table) rest).2.2) :=
  rfl

/-- A row whose id differs from the processed item's id survives one loop
iteration verbatim. -/
theorem stepTable_mem_of_ne (res : Option String) (it : PendingOp)
    (table : List PendingOp) (x : PendingOp) (hx : x ∈ table) (hne : it.id ≠ x.id) :
    x ∈ stepTable res it table := by
  cases hit : it.id with
  | none => cases res <;> simpa [stepTable, hit] using hx
  | some j =>
      cases res with
      | none =>
          simp only [stepTable, hit]
          refine List.mem_filter.mpr ⟨hx, ?_⟩
          simp only [ne_eq, decide_eq_true_eq]
          intro hxj
          exact hne (by rw [hit, hxj])
      | some m =>
          simp only [stepTable, hit]
          refine List.mem_map.mpr ⟨x, hx, ?_⟩
          rw [if_neg]
          intro hxj
          exact hne (hit.trans hxj.symm)

/-- One loop iteration cannot introduce a row with an id absent from the
table. -/
theorem stepTable_absent (res : Option String) (it : PendingOp)
    (table : List PendingOp) (i : Nat) (h : ∀ p ∈ table, p.id ≠ some i) :
    ∀ p ∈ stepTable res it table, p.id ≠ some i := by
  intro p hp
  cases hit : it.id with
  | none =>
      cases res <;> (simp only [stepTable, hit] at hp; exact h p hp)
  | some j =>
      cases res with
      | none =>
          simp only [stepTable, hit] at hp
          exact h p (List.mem_of_mem_filter hp)
      | some m =>
          simp only [stepTable, hit] at hp
          rcases List.mem_map.mp hp with ⟨q, hq, hqp⟩
          subst hqp
          by_cases hcond : q.id = some j
          · rw [if_pos hcond]
            exact h q hq
          · rw [if_neg hcond]
            exact h q hq

/-- The drain loop cannot introduce a row with an id absent from the
table: once a row is gone, no later iteration of the same pass brings it
back. -/
theorem drainLoop_absent (exec : Exec) (items : List PendingOp) :
    ∀ (table : List PendingOp) (i : Nat), (∀ p ∈ table, p.id ≠ some i) →
      ∀ p ∈ (drainLoop exec table items).1, p.id ≠ some i := by
  induction items with
  | nil => intro table i h p hp; exact h p hp
  | cons y rest ih =>
      intro table i h p hp
      rw [drainLoop_cons] at hp
      exact ih _ i (stepTable_absent _ y table i h) p hp

/-- A row whose id is dispatched by none of the remaining items survives
the rest of the pass verbatim. -/
theorem drainLoop_keeps (exec : Exec) (items : List PendingOp) :
    ∀ (table : List PendingOp) (x : PendingOp) (i : Nat), x ∈ table → x.id = some i →
      (∀ y ∈ items, y.id ≠ some i) → x ∈ (drainLoop exec table items).1 := by
  induction items with
  | nil => intro table x i hx _ _; exact hx
  | cons y rest ih =>
      intro table x i hx hxid hni
      rw [drainLoop_cons]
      refine ih _ x i ?_ hxid (fun z hz => hni z (List.mem_cons_of_mem _ hz))
      refine stepTable_mem_of_ne _ y table x hx ?_
      intro h
      exact hni y (List.mem_cons_self _ _) (h.symm ▸ hxid)

/-- One loop iteration preserves the id column of the table up to
deletion: the resulting id list is a sublist of the original one. -/
theorem stepTable_ids_subl (res : Option String) (it : PendingOp)
    (table : List PendingOp) :
    List.Sublist ((stepTable res it table).map PendingOp.id) (table.map PendingOp.id) := by
  cases hit : it.id with
  | none => cases res <;> (simp only [stepTable, hit]; exact List.Sublist.refl _)
  | some j =>
      cases res with
      | none =>
          simp only [stepTable, hit]
          exact (List.filter_sublist table).map PendingOp.id
      | some m =>
          simp only [stepTable, hit]
          rw [List.map_map]
          have : ∀ p ∈ table,
              (PendingOp.id ∘ fun p =>
                if p.id = some j then { p with status := OpStatus.retry, lastError := some m }
                else p) p = PendingOp.id p := by
            intro p _
            by_cases hc : p.id = some j
            · simp [hc]
            · simp [hc]
          rw [List.map_congr_left this]

/-- The drain loop only ever deletes rows or rewrites their
status/lastError: the final id column is a sublist of the initial one. -/
theorem drainLoop_ids_subl (exec : Exec) (items : List PendingOp) :
    ∀ table : List PendingOp,
      List.Sublist (((drainLoop exec table items).1).map PendingOp.id)
        (table.map PendingOp.id) := by
  induction items with
  | nil => intro table; exact List.Sublist.refl _
  | cons y rest ih =>
      intro table
      rw [drainLoop_cons]
      exact (ih _).trans (stepTable_ids_subl _ y table)

/-- If the pass dispatches a failing item whose id occurs only once among
the snapshot items, the final table of the pass contains that item
verbatim except for `status := retry` and the recorded `lastError`. -/
theorem drainLoop_fail_mem (exec : Exec) (items : List PendingOp) :
    ∀ (table : List PendingOp) (x : PendingOp) (i : Nat) (m : String),
      x ∈ items → x ∈ table → x.id = some i → exec x.op x.payload = some m →
      (items.map PendingOp.id).Nodup →
      ({ x with status := OpStatus.retry, lastError := some m } : PendingOp) ∈
        (drainLoop exec table items).1 := by
  induction items with
  | nil => intro table x i m hx; exact absurd hx (List.not_mem_nil x)
  | cons y rest ih =>
      intro table x i m hxi hxt hxid hfail hnodup
      rw [List.map_cons, List.nodup_cons] at hnodup
      rcases List.mem_cons.mp hxi with hxy | hxr
      · subst hxy
        rw [drainLoop_cons, hfail]
        refine drainLoop_keeps exec rest _ _ i ?_ hxid ?_
        · have hstep : stepTable (some m) x table =
              table.map (fun p =>
                if p.id = some i then
                  { p with status := OpStatus.retry, lastError := some m }
                else p) := by
            simp only [stepTable, hxid]
          rw [hstep]
          refine List.mem_map.mpr ⟨x, hxt, ?_⟩
          rw [if_pos hxid]
        · intro z hz hzid
          apply hnodup.1
          rw [hxid, ← hzid]
          exact List.mem_map_of_mem PendingOp.id hz
      · rw [drainLoop_cons]
        have hyx : y.id ≠ some i := by
          intro hyi
          apply hnodup.1
          rw [hyi, ← hxid]
          exact List.mem_map_of_mem PendingOp.id hxr
        refine ih _ x i m hxr ?_ hxid hfail hnodup.2
        exact stepTable_mem_of_ne _ y table x hxt (fun h => hyx (h.symm ▸ hxid))

/-- Every snapshot item is dispatched during the pass, failures
included. -/
theorem drainLoop_dispatch_mem (exec : Exec) (items : List PendingOp) :
    ∀ (table : List PendingOp) (z : PendingOp), z ∈ items →
      Event.dispatch z ∈ (drainLoop exec table items).2.2 := by
  induction items with
  | nil => intro table z hz; exact absurd hz (List.not_mem_nil z)
  | cons y rest ih =>
      intro table z hz
      rw [drainLoop_cons]
      rcases List.mem_cons.mp hz with hzy | hzr
      · subst hzy
        exact List.mem_append_left _ (List.mem_cons_self _ _)
      · exact List.mem_append_right _ (ih _ z hzr)

/-- The dispatch subsequence of a pass's event trace is exactly the
snapshot, in order. -/
theorem dispatches_drainLoop (exec : Exec) (items : List PendingOp) :
    ∀ table : List PendingOp, dispatches (drainLoop exec table items).2.2 = items := by
  induction items with
  | nil => intro table; rfl
  | cons y rest ih =>
      intro table
      rw [drainLoop_cons]
      show dispatches (stepEvents (exec y.op y.payload) y ++ _) = _
      rw [dispatches, List.filterMap_append]
      have h1 : dispatches (stepEvents (exec y.op y.payload) y) = [y] := by
        cases hy : y.id <;> cases hr : exec y.op y.payload <;>
          simp [stepEvents, dispatches, hy, hr]
      rw [← dispatches, ← dispatches, h1, ih]
      rfl

/-- The snapshot is sorted by the `(createdAt, id)` key. -/
theorem sorted_sortPending (l : List PendingOp) : List.Sorted leKey (sortPending l) :=
  List.sorted_insertionSort leKey l

/-- The snapshot is a permutation of the table. -/
theorem perm_sortPending (l : List PendingOp) : List.Perm (sortPending l) l :=
  List.perm_insertionSort leKey l

/-- Unfolding of an online, non-stopped tick on a nonempty table: it
drains the sorted snapshot against the live table. -/
theorem tick_online (exec : Exec) (table : List PendingOp) (h : table ≠ []) :
    tick exec false true table =
      ⟨(drainLoop exec table (sortPending table)).1,
       some (if (drainLoop exec table (sortPending table)).2.1 = 0 then "Synced"
             else "Synced (with " ++ toString (drainLoop exec table (sortPending table)).2.1 ++
               " retrying)"),
       (drainLoop exec table (sortPending table)).2.2⟩ := by
  have hlen : ¬ (sortPending table).length = 0 := by
    rw [(perm_sortPending table).length_eq]
    intro hc
    exact h (List.eq_nil_of_length_eq_zero hc)
  simp [tick, hlen]

/-- C1: a pending operation that is dispatched during an online drain
pass and whose remote application fails is not removed from the queue:
the final table still holds it, unchanged except that its status is the
retry status and `lastError` records the failure diagnostic; and on a
subsequent online drain (with any transport outcomes) it is dispatched
again. -/
theorem c1_failed_op_retained (exec exec2 : Exec) (table : List PendingOp)
    (x : PendingOp) (i : Nat) (m : String)
    (hx : x ∈ table) (hxid : x.id = some i)
    (hfail : exec x.op x.payload = some m)
    (hnodup : (table.map PendingOp.id).Nodup) :
    ({ x with status := OpStatus.retry, lastError := some m } : PendingOp) ∈
      (tick exec false true table).table ∧
    Event.dispatch ({ x with status := OpStatus.retry, lastError := some m } : PendingOp) ∈
      (tick exec2 false true (tick exec false true table).table).events := by
  have hne : table ≠ [] := fun hc => absurd (hc ▸ hx) (List.not_mem_nil x)
  have hsnodup : ((sortPending table).map PendingOp.id).Nodup :=
    (((perm_sortPending table).map PendingOp.id).nodup_iff).mpr hnodup
  have hmem : ({ x with status := OpStatus.retry, lastError := some m } : PendingOp) ∈
      (tick exec false true table).table := by
    rw [tick_online exec table hne]
    exact drainLoop_fail_mem exec (sortPending table) table x i m
      ((perm_sortPending table).mem_iff.mpr hx) hx hxid hfail hsnodup
  refine ⟨hmem, ?_⟩
  have hne2 : (tick exec false true table).table ≠ [] := by
    intro hc
    exact absurd (hc ▸ hmem) (List.not_mem_nil _)
  rw [tick_online exec2 _ hne2]
  exact drainLoop_dispatch_mem exec2 _ _ _
    ((perm_sortPending _).mem_iff.mpr hmem)

/-- Witness for C1: a queue with one `delete_session` operation whose
remote application throws a network error; after the pass the operation
is still queued with retry status and the recorded error, and the next
pass dispatches it again. -/
theorem c1_failed_op_retained_witness :
    (⟨some 1, 10, OpName.delete_session, emptyPayload, OpStatus.queued, none⟩ : PendingOp) ∈
      ([⟨some 1, 10, OpName.delete_session, emptyPayload, OpStatus.queued, none⟩] :
        List PendingOp) ∧
    ({ (⟨some 1, 10, OpName.delete_session, emptyPayload, OpStatus.queued, none⟩ : PendingOp)
        with status := OpStatus.retry, lastError := some "delete_session missing session_id" } :
        PendingOp) ∈
      (tick pureExec false true
        [⟨some 1, 10, OpName.delete_session, emptyPayload, OpStatus.queued, none⟩]).table := by
  refine ⟨List.mem_singleton.mpr rfl, ?_⟩
  exact (c1_failed_op_retained pureExec pureExec
    [⟨some 1, 10, OpName.delete_session, emptyPayload, OpStatus.queued, none⟩]
    ⟨some 1, 10, OpName.delete_session, emptyPayload, OpStatus.queued, none⟩
    1 "delete_session missing session_id"
    (List.mem_singleton.mpr rfl) rfl rfl (by decide)).1

/-- C3: an online drain pass dispatches exactly the full queue, in
`createdAt` order with ties broken by id.  The dispatch subsequence of
the pass's event trace is a permutation of the whole table, and whenever
`a.createdAt < b.createdAt` — or they are equal and `a`'s id is smaller —
`a` is dispatched at a strictly earlier trace position than `b`. -/
theorem c3_fifo_dispatch_order (exec : Exec) (table : List PendingOp) (a b : PendingOp)
    (ha : a ∈ table) (hb : b ∈ table)
    (hab : a.createdAt < b.createdAt ∨
      (a.createdAt = b.createdAt ∧ a.id.getD 0 < b.id.getD 0)) :
    List.Perm (dispatches (tick exec false true table).events) table ∧
    ∃ i j : Nat, i < j ∧
      (dispatches (tick exec false true table).events)[i]? = some a ∧
      (dispatches (tick exec false true table).events)[j]? = some b := by
  have hne : table ≠ [] := fun hc => absurd (hc ▸ ha) (List.not_mem_nil a)
  have hD : dispatches (tick exec false true table).events = sortPending table := by
    rw [tick_online exec table hne]
    exact dispatches_drainLoop exec (sortPending table) table
  refine ⟨hD ▸ perm_sortPending table, ?_⟩
  have hsorted := sorted_sortPending table
  rcases List.mem_iff_getElem.mp ((perm_sortPending table).mem_iff.mpr ha) with ⟨ia, hia, hga⟩
  rcases List.mem_iff_getElem.mp ((perm_sortPending table).mem_iff.mpr hb) with ⟨ib, hib, hgb⟩
  have hij : ia < ib := by
    rcases Nat.lt_trichotomy ia ib with h | h | h
    · exact h
    · exfalso
      have : a = b := by rw [← hga, ← hgb]; congr 1
      subst this
      rcases hab with h1 | ⟨_, h2⟩
      · exact Nat.lt_irrefl _ h1
      · exact Nat.lt_irrefl _ h2
    · exfalso
      have hba : leKey (sortPending table)[ib] (sortPending table)[ia] :=
        List.Sorted.rel_get_of_lt hsorted
          (show (⟨ib, hib⟩ : Fin (sortPending table).length) < ⟨ia, hia⟩ from h)
      rw [hga, hgb] at hba
      rcases hba with h1 | ⟨h1, h2⟩
      · rcases hab with h3 | ⟨h3, _⟩
        · exact Nat.lt_irrefl _ (h1.trans h3)
        · rw [h3] at h1; exact Nat.lt_irrefl _ h1
      · rcases hab with h3 | ⟨_, h3⟩
        · rw [h1] at h3; exact Nat.lt_irrefl _ h3
        · exact Nat.lt_irrefl _ (Nat.lt_of_lt_of_le h3 h2)
  refine ⟨ia, ib, hij, ?_, ?_⟩
  · rw [hD, List.getElem?_eq_getElem hia]
    exact congrArg some hga
  · rw [hD, List.getElem?_eq_getElem hib]
    exact congrArg some hgb

/-- Witness for C3: two queued operations with increasing `createdAt` in
a table stored in reverse order are dispatched in `createdAt` order. -/
theorem c3_fifo_dispatch_order_witness :
    (⟨some 2, 20, OpName.insert_set, emptyPayload, OpStatus.queued, none⟩ : PendingOp) ∈
      ([⟨some 2, 20, OpName.insert_set, emptyPayload, OpStatus.queued, none⟩,
        ⟨some 1, 10, OpName.insert_exercise, emptyPayload, OpStatus.queued, none⟩] :
        List PendingOp) ∧
    (∃ i j : Nat, i < j ∧
      (dispatches (tick pureExec false true
        [⟨some 2, 20, OpName.insert_set, emptyPayload, OpStatus.queued, none⟩,
         ⟨some 1, 10, OpName.insert_exercise, emptyPayload, OpStatus.queued, none⟩]).events)[i]? =
        some ⟨some 1, 10, OpName.insert_exercise, emptyPayload, OpStatus.queued, none⟩ ∧
      (dispatches (tick pureExec false true
        [⟨some 2, 20, OpName.insert_set, emptyPayload, OpStatus.queued, none⟩,
         ⟨some 1, 10, OpName.insert_exercise, emptyPayload, OpStatus.queued, none⟩]).events)[j]? =
        some ⟨some 2, 20, OpName.insert_set, emptyPayload, OpStatus.queued, none⟩) := by
  refine ⟨by decide, ?_⟩
  exact (c3_fifo_dispatch_order pureExec
    [⟨some 2, 20, OpName.insert_set, emptyPayload, OpStatus.queued, none⟩,
     ⟨some 1, 10, OpName.insert_exercise, emptyPayload, OpStatus.queued, none⟩]
    ⟨some 1, 10, OpName.insert_exercise, emptyPayload, OpStatus.queued, none⟩
    ⟨some 2, 20, OpName.insert_set, emptyPayload, OpStatus.queued, none⟩
    (by decide) (by decide) (Or.inl (by decide))).2

/-- Processing a concatenation of snapshot items is processing the first
part and then the second part from the table the first part left
behind. -/
theorem drainTable_append (exec : Exec) (l1 l2 : List PendingOp) :
    ∀ table : List PendingOp,
      (drainLoop exec table (l1 ++ l2)).1 =
        (drainLoop exec (drainLoop exec table l1).1 l2).1 := by
  induction l1 with
  | nil => intro table; rfl
  | cons y rest ih =>
      intro table
      simp only [List.cons_append, drainLoop_cons]
      exact ih _

/-- The event trace of a concatenation splits at the same point. -/
theorem drainEvents_append (exec : Exec) (l1 l2 : List PendingOp) :
    ∀ table : List PendingOp,
      (drainLoop exec table (l1 ++ l2)).2.2 =
        (drainLoop exec table l1).2.2 ++
          (drainLoop exec (drainLoop exec table l1).1 l2).2.2 := by
  induction l1 with
  | nil => intro table; rfl
  | cons y rest ih =>
      intro table
      simp only [List.cons_append, drainLoop_cons]
      rw [ih _, List.append_assoc]

/-- C8: when the `k`-th dispatched operation of an online drain pass
succeeds, its queue row is deleted immediately: the event trace shows the
deletion directly after the dispatch (in particular before the next
dispatch), and from that iteration on — at every later point of the
pass — the live queue no longer contains any row with that id, so the
queue only ever holds operations not yet confirmed applied. -/
theorem c8_success_deleted_immediately (exec : Exec) (table : List PendingOp)
    (k : Nat) (itk : PendingOp) (i : Nat)
    (hget : (sortPending table)[k]? = some itk)
    (hok : exec itk.op itk.payload = none)
    (hid : itk.id = some i) :
    (∃ es1 es2, (tick exec false true table).events =
        es1 ++ Event.dispatch itk :: Event.deleted i :: es2) ∧
    ∀ m, k < m →
      ∀ p ∈ (drainLoop exec table ((sortPending table).take m)).1, p.id ≠ some i := by
  rcases List.getElem?_eq_some.mp hget with ⟨hk, hgetk⟩
  have hne : table ≠ [] := by
    intro hc
    subst hc
    have h0 : sortPending ([] : List PendingOp) = [] := rfl
    rw [h0] at hk
    exact absurd hk (Nat.not_lt_zero k)
  have hsplit : sortPending table =
      (sortPending table).take k ++ itk :: (sortPending table).drop (k + 1) := by
    conv_lhs => rw [← List.take_append_drop k (sortPending table)]
    rw [List.drop_eq_getElem_cons hk, hgetk]
  have hse : stepEvents none itk = [Event.dispatch itk, Event.deleted i] := by
    simp [stepEvents, hid]
  constructor
  · have hev : (tick exec false true table).events =
        (drainLoop exec table (sortPending table)).2.2 := by
      rw [tick_online exec table hne]
    have h22 : (drainLoop exec (drainLoop exec table ((sortPending table).take k)).1
        (itk :: (sortPending table).drop (k + 1))).2.2 =
        stepEvents (exec itk.op itk.payload) itk ++
          (drainLoop exec
            (stepTable (exec itk.op itk.payload) itk
              (drainLoop exec table ((sortPending table).take k)).1)
            ((sortPending table).drop (k + 1))).2.2 := rfl
    rw [hok, hse] at h22
    have hev3 : (drainLoop exec table (sortPending table)).2.2 =
        (drainLoop exec table ((sortPending table).take k)).2.2 ++
          ([Event.dispatch itk, Event.deleted i] ++
            (drainLoop exec
              (stepTable none itk (drainLoop exec table ((sortPending table).take k)).1)
              ((sortPending table).drop (k + 1))).2.2) := by
      conv_lhs => rw [hsplit]
      rw [drainEvents_append]
      congr 1
    refine ⟨(drainLoop exec table ((sortPending table).take k)).2.2,
      (drainLoop exec
        (stepTable none itk (drainLoop exec table ((sortPending table).take k)).1)
        ((sortPending table).drop (k + 1))).2.2, ?_⟩
    rw [hev, hev3]
    rfl
  · intro m hm p hp
    have hm' : m = (k + 1) + (m - (k + 1)) := by omega
    rw [hm', List.take_add, drainTable_append] at hp
    refine drainLoop_absent exec _ _ i ?_ p hp
    intro q hq
    rw [List.take_succ, hget] at hq
    rw [show (some itk).toList = [itk] from rfl] at hq
    rw [drainTable_append] at hq
    have hq' : q ∈ stepTable (exec itk.op itk.payload) itk
        (drainLoop exec table ((sortPending table).take k)).1 := hq
    rw [hok] at hq'
    simp only [stepTable, hid] at hq'
    exact of_decide_eq_true (List.mem_filter.mp hq').2

/-- Filtering twice with the same predicate filters once. -/
theorem filter_idem {α : Type} (p : α → Bool) (l : List α) :
    (l.filter p).filter p = l.filter p := by
  simp [List.filter_filter]

/-- Replaying a primary-keyed insert is a no-op on the table: the second
insert conflicts on the key and writes nothing. -/
theorem insertRows_idem (t : List Row) (r : Row) (i : String) (hr : r.id = some i) :
    insertRows (insertRows t r) r = insertRows t r := by
  unfold insertRows
  rw [hr]
  by_cases h : t.any (fun x => x.id = some i) = true
  · simp [h]
  · have h2 : (t ++ [r]).any (fun x => x.id = some i) = true := by
      rw [List.any_eq_true]
      exact ⟨r, List.mem_append_right _ (List.mem_singleton.mpr rfl), by simp [hr]⟩
    simp [h, h2]

/-- Replaying an upsert is a no-op on the table, provided the payload
conflicts with itself under the chosen key (true for both keys the code
uses, whenever the key fields are present). -/
theorem upsertRows_idem (key : Row → Row → Bool) (t : List Row) (r : Row)
    (hrr : key r r = true) :
    upsertRows key (upsertRows key t r) r = upsertRows key t r := by
  unfold upsertRows
  by_cases h : t.any (fun x => key x r) = true
  · rw [if_pos h]
    have h2 : ((t.map (fun x => if key x r then r else x)).any (fun x => key x r)) = true := by
      rw [List.any_eq_true] at h ⊢
      rcases h with ⟨x, hx, hkx⟩
      exact ⟨r, List.mem_map.mpr ⟨x, hx, by rw [if_pos hkx]⟩, hrr⟩
    rw [if_pos h2, List.map_map]
    apply List.map_congr_left
    intro x _
    by_cases hk : key x r = true
    · simp [Function.comp, hk, hrr]
    · simp [Function.comp, hk]
  · rw [if_neg h]
    have h2 : ((t ++ [r]).any (fun x => key x r)) = true := by
      rw [List.any_eq_true]
      exact ⟨r, List.mem_append_right _ (List.mem_singleton.mpr rfl), hrr⟩
    rw [if_pos h2, List.map_append]
    have h3 : t.map (fun x => if key x r then r else x) = t.map id := by
      apply List.map_congr_left
      intro x hx
      have hk : ¬ key x r = true := fun hk => h (List.any_eq_true.mpr ⟨x, hx, hk⟩)
      simp [hk]
    rw [h3, List.map_id]
    congr 1
    simp [hrr]

/-- A row matched by no id in the list passes through the update loop
unchanged. -/
theorem ordFun_not_mem (g : Nat → Row → Row) :
    ∀ (vs : List String) (i : Nat) (r : Row), (∀ v ∈ vs, r.id ≠ some v) →
      ordFun g i vs r = r := by
  intro vs
  induction vs with
  | nil => intro i r _; rfl
  | cons v vs ih =>
      intro i r h
      simp only [ordFun]
      rw [if_neg (h v (List.mem_cons_self _ _))]
      exact ih (i + 1) r (fun w hw => h w (List.mem_cons_of_mem _ hw))

/-- The update loop never changes a row's id (the assignments only touch
the ordinal field). -/
theorem ordFun_id_eq (g : Nat → Row → Row) (hid : ∀ n r, (g n r).id = r.id) :
    ∀ (vs : List String) (i : Nat) (r : Row), (ordFun g i vs r).id = r.id := by
  intro vs
  induction vs with
  | nil => intro i r; rfl
  | cons v vs ih =>
      intro i r
      simp only [ordFun]
      by_cases h : r.id = some v
      · rw [if_pos h, ih, hid]
      · rw [if_neg h, ih]

/-- A prior absolute assignment to a row that the list matches is
overwritten by the loop. -/
theorem ordFun_absorb (g : Nat → Row → Row) (hid : ∀ n r, (g n r).id = r.id)
    (hover : ∀ n m r, g n (g m r) = g n r) :
    ∀ (vs : List String) (i j : Nat) (r : Row), (∃ v ∈ vs, r.id = some v) →
      ordFun g i vs (g j r) = ordFun g i vs r := by
  intro vs
  induction vs with
  | nil => intro i j r h; rcases h with ⟨v, hv, _⟩; exact absurd hv (List.not_mem_nil v)
  | cons v vs ih =>
      intro i j r h
      simp only [ordFun]
      by_cases hv : r.id = some v
      · rw [if_pos hv, if_pos (by rw [hid]; exact hv), hover]
      · rw [if_neg hv, if_neg (by rw [hid]; exact hv)]
        rcases h with ⟨w, hw, hrw⟩
        rcases List.mem_cons.mp hw with hwv | hwvs
        · subst hwv; exact absurd hrw hv
        · exact ih (i + 1) j r ⟨w, hwvs, hrw⟩

/-- On a row the list matches, the loop's result is some single absolute
assignment to that row. -/
theorem ordFun_fix (g : Nat → Row → Row) (hid : ∀ n r, (g n r).id = r.id)
    (hover : ∀ n m r, g n (g m r) = g n r) :
    ∀ (vs : List String) (i : Nat) (r : Row), (∃ v ∈ vs, r.id = some v) →
      ∃ j, ordFun g i vs r = g j r := by
  intro vs
  induction vs with
  | nil => intro i r h; rcases h with ⟨v, hv, _⟩; exact absurd hv (List.not_mem_nil v)
  | cons v vs ih =>
      intro i r h
      simp only [ordFun]
      by_cases hv : r.id = some v
      · rw [if_pos hv]
        by_cases h2 : ∃ w ∈ vs, r.id = some w
        · rcases h2 with ⟨w, hw, hrw⟩
          rcases ih (i + 1) (g i r) ⟨w, hw, by rw [hid]; exact hrw⟩ with ⟨j, hj⟩
          exact ⟨j, by rw [hj, hover]⟩
        · refine ⟨i, ?_⟩
          apply ordFun_not_mem
          intro w hw hcontra
          rw [hid] at hcontra
          exact h2 ⟨w, hw, hcontra⟩
      · rw [if_neg hv]
        rcases h with ⟨w, hw, hrw⟩
        rcases List.mem_cons.mp hw with hwv | hwvs
        · subst hwv; exact absurd hrw hv
        · exact ih (i + 1) r ⟨w, hwvs, hrw⟩

/-- The per-row update loop is idempotent: replaying the same ordered
list of absolute assignments leaves a row where the first replay put
it. -/
theorem ordFun_idem (g : Nat → Row → Row) (hid : ∀ n r, (g n r).id = r.id)
    (hover : ∀ n m r, g n (g m r) = g n r) :
    ∀ (vs : List String) (i : Nat) (r : Row),
      ordFun g i vs (ordFun g i vs r) = ordFun g i vs r := by
  intro vs i r
  by_cases h : ∃ v ∈ vs, r.id = some v
  · rcases ordFun_fix g hid hover vs i r h with ⟨j, hj⟩
    rw [hj, ordFun_absorb g hid hover vs i j r h, hj]
  · push_neg at h
    rw [ordFun_not_mem g vs i r h, ordFun_not_mem g vs i r h]

/-- The sequential update loop is the pointwise map of its per-row
effect. -/
theorem applyOrdFrom_eq_map (g : Nat → Row → Row) :
    ∀ (vs : List String) (i : Nat) (t : List Row),
      applyOrdFrom g i vs t = t.map (ordFun g i vs) := by
  intro vs
  induction vs with
  | nil =>
      intro i t
      show t = t.map (ordFun g i [])
      have h : t.map (ordFun g i []) = t.map id := List.map_congr_left (fun r _ => rfl)
      rw [h, List.map_id]
  | cons v vs ih =>
      intro i t
      show applyOrdFrom g (i + 1) vs (t.map fun r => if r.id = some v then g i r else r) = _
      rw [ih, List.map_map]
      exact List.map_congr_left (fun r _ => rfl)

/-- Replaying a whole ordered-update operation is a no-op on the
table. -/
theorem applyOrdFrom_idem (g : Nat → Row → Row) (hid : ∀ n r, (g n r).id = r.id)
    (hover : ∀ n m r, g n (g m r) = g n r) (vs : List String) (i : Nat) (t : List Row) :
    applyOrdFrom g i vs (applyOrdFrom g i vs t) = applyOrdFrom g i vs t := by
  rw [applyOrdFrom_eq_map, applyOrdFrom_eq_map, List.map_map]
  exact List.map_congr_left (fun r _ => ordFun_idem g hid hover vs i r)

/-- The renumber assignment preserves the row id. -/
theorem gSetNumber_id (n : Nat) (r : Row) : (gSetNumber n r).id = r.id :=
  rfl

/-- A later renumber assignment overwrites an earlier one. -/
theorem gSetNumber_over (n m : Nat) (r : Row) :
    gSetNumber n (gSetNumber m r) = gSetNumber n r :=
  rfl

/-- The reorder assignment preserves the row id. -/
theorem gSortOrder_id (n : Nat) (r : Row) : (gSortOrder n r).id = r.id :=
  rfl

/-- A later reorder assignment overwrites an earlier one. -/
theorem gSortOrder_over (n m : Nat) (r : Row) :
    gSortOrder n (gSortOrder m r) = gSortOrder n r :=
  rfl

/-- On the row whose id sits at position `k` of a duplicate-free update
list, the loop's net effect is the assignment for index `k`. -/
theorem ordFun_pos (g : Nat → Row → Row) (hid : ∀ n r, (g n r).id = r.id) :
    ∀ (vs : List String) (i k : Nat) (hk : k < vs.length) (r : Row),
      vs.Nodup → r.id = some vs[k] → ordFun g i vs r = g (i + k) r := by
  intro vs
  induction vs with
  | nil => intro i k hk; exact absurd hk (Nat.not_lt_zero k)
  | cons v vs ih =>
      intro i k hk r hnodup hr
      rw [List.nodup_cons] at hnodup
      cases k with
      | zero =>
          simp only [ordFun]
          rw [if_pos (show r.id = some v from hr)]
          rw [ordFun_not_mem]
          · rw [Nat.add_zero]
          intro w hw hcontra
          rw [hid] at hcontra
          rw [hr] at hcontra
          rw [Option.some.injEq] at hcontra
          have hvw : v = w := hcontra
          apply hnodup.1
          rw [hvw]
          exact hw
      | succ k =>
          have hk' : k < vs.length := Nat.lt_of_succ_lt_succ hk
          have hrv : r.id ≠ some v := by
            intro hcontra
            rw [hr] at hcontra
            rw [Option.some.injEq] at hcontra
            have hkv : vs[k] = v := hcontra
            apply hnodup.1
            rw [← hkv]
            exact List.getElem_mem hk'
          simp only [ordFun]
          rw [if_neg hrv]
          rw [ih (i + 1) k hk' r hnodup.2 hr]
          have hixe : i + 1 + k = i + (k + 1) := by omega
          rw [hixe]

/-- The local renumber loop is the pointwise map of its per-row
effect. -/
theorem renumberLocalFrom_eq_map :
    ∀ (snap : List LocalSet) (i : Nat) (t : List LocalSet),
      renumberLocalFrom i snap t = t.map (localRenumFun i snap) := by
  intro snap
  induction snap with
  | nil =>
      intro i t
      show t = t.map (localRenumFun i [])
      have h : t.map (localRenumFun i []) = t.map id := List.map_congr_left (fun r _ => rfl)
      rw [h, List.map_id]
  | cons s rest ih =>
      intro i t
      simp only [renumberLocalFrom]
      by_cases hg : s.set_number = i + 1
      · rw [if_neg (fun hne => hne hg), ih]
        apply List.map_congr_left
        intro r _
        show localRenumFun (i + 1) rest r = localRenumFun i (s :: rest) r
        simp only [localRenumFun]
        rw [if_neg (fun hne => hne hg)]
      · rw [if_pos hg, ih]
        unfold updateLocalSetNumber
        rw [List.map_map]
        apply List.map_congr_left
        intro r _
        show localRenumFun (i + 1) rest
            (if r.id = s.id then { r with set_number := i + 1 } else r) =
          localRenumFun i (s :: rest) r
        simp only [localRenumFun]
        rw [if_pos hg]

/-- A row matched by no snapshot entry passes through the local renumber
loop unchanged. -/
theorem localRenumFun_not_mem :
    ∀ (snap : List LocalSet) (i : Nat) (r : LocalSet),
      (∀ x ∈ snap, r.id ≠ x.id) → localRenumFun i snap r = r := by
  intro snap
  induction snap with
  | nil => intro i r _; rfl
  | cons s rest ih =>
      intro i r h
      simp only [localRenumFun]
      by_cases hg : s.set_number ≠ i + 1
      · rw [if_pos hg, if_neg (h s (List.mem_cons_self _ _))]
        exact ih (i + 1) r (fun x hx => h x (List.mem_cons_of_mem _ hx))
      · rw [if_neg hg]
        exact ih (i + 1) r (fun x hx => h x (List.mem_cons_of_mem _ hx))

/-- The local renumber loop never changes a row's id. -/
theorem localRenumFun_id_eq :
    ∀ (snap : List LocalSet) (i : Nat) (r : LocalSet),
      (localRenumFun i snap r).id = r.id := by
  intro snap
  induction snap with
  | nil => intro i r; rfl
  | cons s rest ih =>
      intro i r
      simp only [localRenumFun]
      by_cases hg : s.set_number ≠ i + 1
      · rw [if_pos hg]
        by_cases hr : r.id = s.id
        · rw [if_pos hr, ih]
        · rw [if_neg hr, ih]
      · rw [if_neg hg, ih]

/-- The local renumber loop never changes a row's exercise. -/
theorem localRenumFun_exid :
    ∀ (snap : List LocalSet) (i : Nat) (r : LocalSet),
      (localRenumFun i snap r).exercise_id = r.exercise_id := by
  intro snap
  induction snap with
  | nil => intro i r; rfl
  | cons s rest ih =>
      intro i r
      simp only [localRenumFun]
      by_cases hg : s.set_number ≠ i + 1
      · rw [if_pos hg]
        by_cases hr : r.id = s.id
        · rw [if_pos hr, ih]
        · rw [if_neg hr, ih]
      · rw [if_neg hg, ih]

/-- The snapshot row at position `k` ends the local renumber loop with
`set_number = i + k + 1`, whether or not its number already matched. -/
theorem localRenumFun_pos :
    ∀ (snap : List LocalSet) (i k : Nat) (hk : k < snap.length),
      (snap.map LocalSet.id).Nodup →
      localRenumFun i snap snap[k] = { snap[k] with set_number := i + k + 1 } := by
  intro snap
  induction snap with
  | nil => intro i k hk; exact absurd hk (Nat.not_lt_zero k)
  | cons s rest ih =>
      intro i k hk hnodup
      rw [List.map_cons, List.nodup_cons] at hnodup
      cases k with
      | zero =>
          show localRenumFun i (s :: rest) s = { s with set_number := i + 0 + 1 }
          have hunfold : localRenumFun i (s :: rest) s =
              localRenumFun (i + 1) rest
                (if s.set_number ≠ i + 1 then
                  (if s.id = s.id then { s with set_number := i + 1 } else s)
                 else s) := rfl
          rw [hunfold]
          by_cases hg : s.set_number ≠ i + 1
          · rw [if_pos hg, if_pos rfl]
            rw [localRenumFun_not_mem]
            intro x hx hcontra
            apply hnodup.1
            rw [show ({ s with set_number := i + 1 } : LocalSet).id = s.id from rfl]
              at hcontra
            rw [hcontra]
            exact List.mem_map_of_mem LocalSet.id hx
          · rw [if_neg hg]
            rw [localRenumFun_not_mem]
            · have hnum : s.set_number = i + 1 := not_not.mp hg
              rw [Nat.add_zero, ← hnum]
            · intro x hx hcontra
              apply hnodup.1
              rw [hcontra]
              exact List.mem_map_of_mem LocalSet.id hx
      | succ k =>
          have hk' : k < rest.length := Nat.lt_of_succ_lt_succ hk
          show localRenumFun i (s :: rest) rest[k] =
            { rest[k] with set_number := i + (k + 1) + 1 }
          have hidne : rest[k].id ≠ s.id := by
            intro hcontra
            apply hnodup.1
            rw [← hcontra]
            exact List.mem_map_of_mem LocalSet.id (List.getElem_mem hk')
          simp only [localRenumFun]
          by_cases hg : s.set_number ≠ i + 1
          · rw [if_pos hg, if_neg hidne]
            rw [ih (i + 1) k hk' hnodup.2]
            have hixe : i + 1 + k + 1 = i + (k + 1) + 1 := by omega
            rw [hixe]
          · rw [if_neg hg]
            rw [ih (i + 1) k hk' hnodup.2]
            have hixe : i + 1 + k + 1 = i + (k + 1) + 1 := by omega
            rw [hixe]

/-- Filtering by two predicates commutes. -/
theorem filter_comm {α : Type} (p q : α → Bool) (l : List α) :
    (l.filter p).filter q = (l.filter q).filter p := by
  simp [List.filter_filter, Bool.and_comm]

/-- Removing one row (by its id) from a list with duplicate-free ids
shortens it by exactly one. -/
theorem length_filter_erase_id (l : List LocalSet) (s0 : LocalSet) (hmem : s0 ∈ l)
    (hnodup : (l.map LocalSet.id).Nodup) :
    (l.filter (fun r => r.id ≠ s0.id)).length = l.length - 1 := by
  rcases List.append_of_mem hmem with ⟨l1, l2, rfl⟩
  rw [List.map_append, List.map_cons] at hnodup
  rcases List.nodup_append.mp hnodup with ⟨_, hn2, hdisj⟩
  rw [List.nodup_cons] at hn2
  have h1 : ∀ r ∈ l1, r.id ≠ s0.id := by
    intro r hr hcontra
    have hmem1 : s0.id ∈ l1.map LocalSet.id := by
      rw [← hcontra]
      exact List.mem_map_of_mem _ hr
    exact hdisj hmem1 (List.mem_cons_self _ _)
  have h2 : ∀ r ∈ l2, r.id ≠ s0.id := by
    intro r hr hcontra
    apply hn2.1
    rw [← hcontra]
    exact List.mem_map_of_mem _ hr
  have hf1 : l1.filter (fun r => r.id ≠ s0.id) = l1 := by
    rw [List.filter_eq_self]
    intro r hr
    simpa using h1 r hr
  have hf2 : l2.filter (fun r => r.id ≠ s0.id) = l2 := by
    rw [List.filter_eq_self]
    intro r hr
    simpa using h2 r hr
  have hcons : (s0 :: l2).filter (fun r => r.id ≠ s0.id) =
      l2.filter (fun r => r.id ≠ s0.id) := by
    simp
  rw [List.filter_append, hcons, hf1, hf2]
  simp [List.length_append]

/-- The cascade leaves the exercises table filtered by session id,
whether or not any dependent sets were deleted. -/
theorem delSessionRemote_exercises (sid : String) (s : Remote) :
    (delSessionRemote sid s).workout_exercises = deleteEqSession s.workout_exercises sid := by
  unfold delSessionRemote
  by_cases h : (sessionExIds sid s).length > 0 <;> simp [h]

/-- The cascade leaves the sessions table filtered by id. -/
theorem delSessionRemote_sessions (sid : String) (s : Remote) :
    (delSessionRemote sid s).workout_sessions = deleteEqId s.workout_sessions sid := by
  unfold delSessionRemote
  by_cases h : (sessionExIds sid s).length > 0 <;> simp [h]

/-- When the session and its children are already absent on the remote
store, the cascade is a complete no-op on the remote state. -/
theorem delSessionRemote_noop (sid : String) (t : Remote)
    (hex : ∀ r ∈ t.workout_exercises, r.session_id ≠ sid)
    (hsess : ∀ r ∈ t.workout_sessions, r.id ≠ some sid) :
    delSessionRemote sid t = t := by
  have h1 : t.workout_exercises.filter (fun r => r.session_id = sid) = [] := by
    rw [List.filter_eq_nil_iff]
    intro r hr
    simp [hex r hr]
  have hids : sessionExIds sid t = [] := by
    unfold sessionExIds
    rw [h1]
    rfl
  have h2 : deleteEqSession t.workout_exercises sid = t.workout_exercises := by
    unfold deleteEqSession
    rw [List.filter_eq_self]
    intro r hr
    simp [hex r hr]
  have h3 : deleteEqId t.workout_sessions sid = t.workout_sessions := by
    unfold deleteEqId
    rw [List.filter_eq_self]
    intro r hr
    simp [hsess r hr]
  unfold delSessionRemote
  rw [hids]
  simp only [List.length_nil, gt_iff_lt, lt_self_iff_false, if_false, h2, h3]

/-- Replaying the whole `delete_session` cascade is a no-op on the remote
state: the first run removed everything the second run's discovery
query could find. -/
theorem delSessionRemote_idem (sid : String) (s : Remote) :
    delSessionRemote sid (delSessionRemote sid s) = delSessionRemote sid s := by
  apply delSessionRemote_noop
  · rw [delSessionRemote_exercises]
    intro r hr
    simp only [deleteEqSession] at hr
    exact of_decide_eq_true (List.mem_filter.mp hr).2
  · rw [delSessionRemote_sessions]
    intro r hr
    simp only [deleteEqId] at hr
    exact of_decide_eq_true (List.mem_filter.mp hr).2

/-- Witness for C8: in a two-item queue whose first sorted operation
succeeds, the trace deletes row 1 immediately after dispatching it, and
row 1 is gone from every later intermediate table of the pass. -/
theorem c8_success_deleted_immediately_witness :
    (sortPending
      [⟨some 1, 10, OpName.insert_exercise, emptyPayload, OpStatus.queued, none⟩,
       ⟨some 2, 20, OpName.delete_session, emptyPayload, OpStatus.queued, none⟩])[0]? =
      some ⟨some 1, 10, OpName.insert_exercise, emptyPayload, OpStatus.queued, none⟩ ∧
    ((∃ es1 es2, (tick pureExec false true
        [⟨some 1, 10, OpName.insert_exercise, emptyPayload, OpStatus.queued, none⟩,
         ⟨some 2, 20, OpName.delete_session, emptyPayload, OpStatus.queued, none⟩]).events =
        es1 ++ Event.dispatch
            ⟨some 1, 10, OpName.insert_exercise, emptyPayload, OpStatus.queued, none⟩ ::
          Event.deleted 1 :: es2) ∧
      ∀ m, 0 < m →
        ∀ p ∈ (drainLoop pureExec
          [⟨some 1, 10, OpName.insert_exercise, emptyPayload, OpStatus.queued, none⟩,
           ⟨some 2, 20, OpName.delete_session, emptyPayload, OpStatus.queued, none⟩]
          ((sortPending
            [⟨some 1, 10, OpName.insert_exercise, emptyPayload, OpStatus.queued, none⟩,
             ⟨some 2, 20, OpName.delete_session, emptyPayload, OpStatus.queued, none⟩]).take m)).1,
          p.id ≠ some 1) := by
  refine ⟨by decide, ?_⟩
  exact c8_success_deleted_immediately pureExec
    [⟨some 1, 10, OpName.insert_exercise, emptyPayload, OpStatus.queued, none⟩,
     ⟨some 2, 20, OpName.delete_session, emptyPayload, OpStatus.queued, none⟩]
    0 ⟨some 1, 10, OpName.insert_exercise, emptyPayload, OpStatus.queued, none⟩ 1
    (by decide) (by decide) rfl

/-- C2: replay is idempotent.  For every operation kind, provided any
insert/upsert payload carries its client-generated id, dispatching the
operation twice leaves the remote store in the same state as dispatching
it once; a replayed `delete_set` of an already-deleted id completes
without error and without touching the store; and a replayed
`delete_session` completes without error and without further change. -/
theorem c2_idempotent_replay :
    (∀ (op : OpName) (p : Payload) (s : Remote), carriesClientId op p →
        (processOp op p (processOp op p s).remote).remote = (processOp op p s).remote) ∧
    (∀ (p : Payload) (s : Remote) (i : String), truthy p.set_id = some i →
        (∀ r ∈ s.workout_sets, r.id ≠ some i) →
        (processOp OpName.delete_set p s).err = none ∧
        (processOp OpName.delete_set p s).remote = s) ∧
    (∀ (p : Payload) (s : Remote) (sid : String), truthy p.session_id = some sid →
        (processOp OpName.delete_session p
          (processOp OpName.delete_session p s).remote).err = none ∧
        (processOp OpName.delete_session p
          (processOp OpName.delete_session p s).remote).remote =
          (processOp OpName.delete_session p s).remote) := by
  refine ⟨?_, ?_, ?_⟩
  · intro op p s hc
    cases op with
    | upsert_daily =>
        simp only [processOp]
        rw [upsertRows_idem sameUserDay s.daily_logs p.row (by simp [sameUserDay])]
    | upsert_nutrition =>
        simp only [processOp]
        rw [upsertRows_idem sameUserDay s.nutrition_logs p.row (by simp [sameUserDay])]
    | insert_zone2 =>
        cases hri : p.row.id with
        | none => exact absurd hri hc
        | some i =>
            simp only [processOp]
            rw [insertRows_idem s.zone2_sessions p.row i hri]
    | create_workout =>
        cases hri : p.row.id with
        | none => exact absurd hri hc
        | some i =>
            simp only [processOp]
            rw [insertRows_idem s.workout_sessions p.row i hri]
    | insert_exercise =>
        cases hri : p.row.id with
        | none => exact absurd hri hc
        | some i =>
            simp only [processOp]
            rw [insertRows_idem s.workout_exercises p.row i hri]
    | insert_set =>
        cases hri : p.row.id with
        | none => exact absurd hri hc
        | some i =>
            simp only [processOp]
            rw [insertRows_idem s.workout_sets p.row i hri]
    | create_template =>
        cases hri : p.row.id with
        | none => exact absurd hri hc
        | some i =>
            simp only [processOp]
            rw [insertRows_idem s.workout_templates p.row i hri]
    | insert_template_exercise =>
        cases hri : p.row.id with
        | none => exact absurd hri hc
        | some i =>
            simp only [processOp]
            rw [insertRows_idem s.workout_template_exercises p.row i hri]
    | update_template_exercise =>
        cases hri : p.row.id with
        | none => exact absurd hri hc
        | some i =>
            simp only [processOp]
            rw [upsertRows_idem sameId s.workout_template_exercises p.row
              (by simp [sameId, hri])]
    | delete_set =>
        cases htr : truthy p.set_id with
        | none => simp [processOp, htr]
        | some i =>
            simp only [processOp, htr]
            rw [show deleteEqId (deleteEqId s.workout_sets i) i = deleteEqId s.workout_sets i
              from filter_idem _ _]
    | renumber_sets =>
        cases hco : coerceIds p.ordered_set_ids with
        | none => simp [processOp, hco]
        | some ids =>
            simp only [processOp, hco]
            rw [applyOrdFrom_idem gSetNumber gSetNumber_id gSetNumber_over ids 0
              s.workout_sets]
    | delete_exercise =>
        cases htr : truthy p.exercise_id with
        | none => simp [processOp, htr]
        | some i =>
            simp only [processOp, htr]
            rw [show deleteEqExercise (deleteEqExercise s.workout_sets i) i =
                deleteEqExercise s.workout_sets i from filter_idem _ _,
              show deleteEqId (deleteEqId s.workout_exercises i) i =
                deleteEqId s.workout_exercises i from filter_idem _ _]
    | reorder_exercises =>
        cases hco : coerceIds p.ordered_exercise_ids with
        | none => simp [processOp, hco]
        | some ids =>
            simp only [processOp, hco]
            rw [applyOrdFrom_idem gSortOrder gSortOrder_id gSortOrder_over ids 0
              s.workout_exercises]
    | delete_session =>
        cases htr : truthy p.session_id with
        | none => simp [processOp, htr]
        | some sid =>
            simp only [processOp, htr]
            exact delSessionRemote_idem sid s
    | unknown name => simp [processOp]
  · intro p s i htr habs
    refine ⟨by simp [processOp, htr], ?_⟩
    simp only [processOp, htr]
    rw [show deleteEqId s.workout_sets i = s.workout_sets from by
      unfold deleteEqId
      rw [List.filter_eq_self]
      intro r hr
      simp [habs r hr]]
  · intro p s sid htr
    have h1 : (processOp OpName.delete_session p s).remote = delSessionRemote sid s := by
      simp [processOp, htr]
    refine ⟨?_, ?_⟩
    · rw [h1]
      simp [processOp, htr]
    · rw [h1]
      have h2 : (processOp OpName.delete_session p (delSessionRemote sid s)).remote =
          delSessionRemote sid (delSessionRemote sid s) := by
        simp [processOp, htr]
      rw [h2, delSessionRemote_idem]

/-- Witness for C2 at concrete inputs: replaying an `insert_set` whose
payload carries the client id `T1` against an empty remote store changes
nothing the second time, and replaying `delete_set` of the absent id
`T9` succeeds silently. -/
theorem c2_idempotent_replay_witness :
    carriesClientId OpName.insert_set
      { emptyPayload with row := { emptyRow with id := some "T1" } } ∧
    truthy (payloadDeleteSet "T9").set_id = some "T9" ∧
    (processOp OpName.insert_set
        { emptyPayload with row := { emptyRow with id := some "T1" } }
        (processOp OpName.insert_set
          { emptyPayload with row := { emptyRow with id := some "T1" } }
          emptyRemote).remote).remote =
      (processOp OpName.insert_set
        { emptyPayload with row := { emptyRow with id := some "T1" } }
        emptyRemote).remote ∧
    (processOp OpName.delete_set (payloadDeleteSet "T9") emptyRemote).err = none ∧
    (processOp OpName.delete_set (payloadDeleteSet "T9") emptyRemote).remote =
      emptyRemote := by
  have h1 := c2_idempotent_replay.1 OpName.insert_set
    { emptyPayload with row := { emptyRow with id := some "T1" } } emptyRemote
    (by simp [carriesClientId])
  have h2 := c2_idempotent_replay.2.1 (payloadDeleteSet "T9") emptyRemote "T9"
    (by decide) (fun r hr => absurd hr (List.not_mem_nil r))
  exact ⟨by simp [carriesClientId], by decide, h1, h2.1, h2.2⟩

/-- C5: for a `delete_session` with a present session id, the dispatch
completes without error; its remote-call trace starts with the discovery
query for the session's exercises and then deletes strictly child-first —
the discovered exercises' sets (when any exercise was found), then the
session's exercises, then the session row; and when the session and its
children are already absent on the remote store, the operation completes
as success and leaves the store untouched. -/
theorem c5_delete_session_cascade (p : Payload) (s : Remote) (sid : String)
    (htr : truthy p.session_id = some sid) :
    (processOp OpName.delete_session p s).err = none ∧
    (∃ pre,
      (processOp OpName.delete_session p s).calls =
        RCall.selectExercisesBySession sid :: pre ++
          [RCall.deleteEq "workout_exercises" "session_id" sid,
           RCall.deleteEq "workout_sessions" "id" sid] ∧
      (pre = [] ∨
        (sessionExIds sid s ≠ [] ∧
          pre = [RCall.deleteIn "workout_sets" "exercise_id" (sessionExIds sid s)]))) ∧
    ((∀ r ∈ s.workout_exercises, r.session_id ≠ sid) →
      (∀ r ∈ s.workout_sessions, r.id ≠ some sid) →
      (processOp OpName.delete_session p s).remote = s) := by
  refine ⟨by simp [processOp, htr], ?_, ?_⟩
  · by_cases h : (sessionExIds sid s).length > 0
    · refine ⟨[RCall.deleteIn "workout_sets" "exercise_id" (sessionExIds sid s)],
        ?_, Or.inr ⟨?_, rfl⟩⟩
      · simp [processOp, htr, h]
      · intro hc
        rw [hc] at h
        simp at h
    · refine ⟨[], ?_, Or.inl rfl⟩
      simp [processOp, htr, h]
  · intro hex hsess
    have h1 : (processOp OpName.delete_session p s).remote = delSessionRemote sid s := by
      simp [processOp, htr]
    rw [h1]
    exact delSessionRemote_noop sid s hex hsess

/-- Witness for C5: deleting session `S1` from a remote store holding one
session, one exercise and one set issues the full child-first trace. -/
theorem c5_delete_session_cascade_witness :
    truthy { emptyPayload with session_id := some "S1" }.session_id = some "S1" ∧
    ((processOp OpName.delete_session { emptyPayload with session_id := some "S1" }
        ⟨[], [], [], [⟨some "S1", "", "", "", "", "", 0, 0, ""⟩],
          [⟨some "E1", "", "", "S1", "", "", 0, 0, ""⟩],
          [⟨some "T1", "", "", "", "E1", "", 1, 0, ""⟩], [], []⟩).err = none ∧
      (∃ pre,
        (processOp OpName.delete_session { emptyPayload with session_id := some "S1" }
          ⟨[], [], [], [⟨some "S1", "", "", "", "", "", 0, 0, ""⟩],
            [⟨some "E1", "", "", "S1", "", "", 0, 0, ""⟩],
            [⟨some "T1", "", "", "", "E1", "", 1, 0, ""⟩], [], []⟩).calls =
          RCall.selectExercisesBySession "S1" :: pre ++
            [RCall.deleteEq "workout_exercises" "session_id" "S1",
             RCall.deleteEq "workout_sessions" "id" "S1"] ∧
        (pre = [] ∨
          (sessionExIds "S1"
              ⟨[], [], [], [⟨some "S1", "", "", "", "", "", 0, 0, ""⟩],
                [⟨some "E1", "", "", "S1", "", "", 0, 0, ""⟩],
                [⟨some "T1", "", "", "", "E1", "", 1, 0, ""⟩], [], []⟩ ≠ [] ∧
            pre = [RCall.deleteIn "workout_sets" "exercise_id"
              (sessionExIds "S1"
                ⟨[], [], [], [⟨some "S1", "", "", "", "", "", 0, 0, ""⟩],
                  [⟨some "E1", "", "", "S1", "", "", 0, 0, ""⟩],
                  [⟨some "T1", "", "", "", "E1", "", 1, 0, ""⟩], [], []⟩)]))) ∧
      ((∀ r ∈ (⟨[], [], [], [⟨some "S1", "", "", "", "", "", 0, 0, ""⟩],
            [⟨some "E1", "", "", "S1", "", "", 0, 0, ""⟩],
            [⟨some "T1", "", "", "", "E1", "", 1, 0, ""⟩], [], []⟩ : Remote).workout_exercises,
          r.session_id ≠ "S1") →
        (∀ r ∈ (⟨[], [], [], [⟨some "S1", "", "", "", "", "", 0, 0, ""⟩],
            [⟨some "E1", "", "", "S1", "", "", 0, 0, ""⟩],
            [⟨some "T1", "", "", "", "E1", "", 1, 0, ""⟩], [], []⟩ : Remote).workout_sessions,
          r.id ≠ some "S1") →
        (processOp OpName.delete_session { emptyPayload with session_id := some "S1" }
          ⟨[], [], [], [⟨some "S1", "", "", "", "", "", 0, 0, ""⟩],
            [⟨some "E1", "", "", "S1", "", "", 0, 0, ""⟩],
            [⟨some "T1", "", "", "", "E1", "", 1, 0, ""⟩], [], []⟩).remote =
          ⟨[], [], [], [⟨some "S1", "", "", "", "", "", 0, 0, ""⟩],
            [⟨some "E1", "", "", "S1", "", "", 0, 0, ""⟩],
            [⟨some "T1", "", "", "", "E1", "", 1, 0, ""⟩], [], []⟩)) :=
  ⟨rfl, c5_delete_session_cascade { emptyPayload with session_id := some "S1" }
    ⟨[], [], [], [⟨some "S1", "", "", "", "", "", 0, 0, ""⟩],
      [⟨some "E1", "", "", "S1", "", "", 0, 0, ""⟩],
      [⟨some "T1", "", "", "", "E1", "", 1, 0, ""⟩], [], []⟩ "S1" rfl⟩

/-- C6: deleting one set from an exercise leaves the surviving local
rows of that exercise with `set_number` exactly `1..K-1` (as a
permutation of that range, with no gaps), enqueues exactly a
`delete_set` followed by a `renumber_sets` whose ordered id list has one
entry per survivor; dispatching that list assigns `set_number = i + 1` to
the `i`-th id positionally; and replaying any such list is idempotent on
the remote sets table. -/
theorem c6_renumber_density (t : List LocalSet) (setId exId : String) (s0 : LocalSet)
    (hnodup : (t.map LocalSet.id).Nodup)
    (hmem : s0 ∈ t) (hid : s0.id = setId) (hex : s0.exercise_id = exId) :
    ∃ rids : List String,
      (deleteSet setId exId t).enqueued =
        [(OpName.delete_set, payloadDeleteSet setId),
         (OpName.renumber_sets, payloadRenumber rids)] ∧
      rids.Nodup ∧
      rids.length = (t.filter (fun r => r.exercise_id = exId)).length - 1 ∧
      List.Perm
        (((deleteSet setId exId t).localSets.filter
            (fun r => r.exercise_id = exId)).map (fun r => r.set_number))
        (List.range' 1 ((t.filter (fun r => r.exercise_id = exId)).length - 1)) ∧
      (∀ (rows : List Row) (k : Nat) (hk : k < rids.length) (r : Row),
        r ∈ applyOrdFrom gSetNumber 0 rids rows → r.id = some rids[k] →
          r.set_number = k + 1) ∧
      (∀ (ids2 : List String) (rows : List Row),
        applyOrdFrom gSetNumber 0 ids2 (applyOrdFrom gSetNumber 0 ids2 rows) =
          applyOrdFrom gSetNumber 0 ids2 rows) := by
  subst hid
  subst hex
  have ht1nodup : ((t.filter (fun r => r.id ≠ s0.id)).map LocalSet.id).Nodup :=
    ((List.filter_sublist t).map LocalSet.id).nodup hnodup
  have hlremnodup :
      (((t.filter (fun r => r.id ≠ s0.id)).filter
        (fun r => r.exercise_id = s0.exercise_id)).map LocalSet.id).Nodup :=
    ((List.filter_sublist _).map LocalSet.id).nodup ht1nodup
  have hremperm : List.Perm
      (List.insertionSort leSetNum ((t.filter (fun r => r.id ≠ s0.id)).filter
        (fun r => r.exercise_id = s0.exercise_id)))
      ((t.filter (fun r => r.id ≠ s0.id)).filter
        (fun r => r.exercise_id = s0.exercise_id)) :=
    List.perm_insertionSort leSetNum _
  have hremnodup :
      ((List.insertionSort leSetNum ((t.filter (fun r => r.id ≠ s0.id)).filter
        (fun r => r.exercise_id = s0.exercise_id))).map LocalSet.id).Nodup :=
    ((hremperm.map LocalSet.id).nodup_iff).mpr hlremnodup
  have hkey : (List.insertionSort leSetNum ((t.filter (fun r => r.id ≠ s0.id)).filter
      (fun r => r.exercise_id = s0.exercise_id))).length =
      (t.filter (fun r => r.exercise_id = s0.exercise_id)).length - 1 := by
    rw [hremperm.length_eq, filter_comm]
    apply length_filter_erase_id
    · exact List.mem_filter.mpr ⟨hmem, by simp⟩
    · exact ((List.filter_sublist t).map LocalSet.id).nodup hnodup
  refine ⟨(List.insertionSort leSetNum ((t.filter (fun (r : LocalSet) => r.id ≠ s0.id)).filter
      (fun r => r.exercise_id = s0.exercise_id))).map (fun (r : LocalSet) => r.id),
    rfl, hremnodup, ?_, ?_, ?_, ?_⟩
  · rw [List.length_map]
    exact hkey
  · have hfinal : (deleteSet s0.id s0.exercise_id t).localSets =
        (t.filter (fun r => r.id ≠ s0.id)).map
          (localRenumFun 0 (List.insertionSort leSetNum
            ((t.filter (fun r => r.id ≠ s0.id)).filter
              (fun r => r.exercise_id = s0.exercise_id)))) :=
      renumberLocalFrom_eq_map
        (List.insertionSort leSetNum ((t.filter (fun (r : LocalSet) => r.id ≠ s0.id)).filter
          (fun r => r.exercise_id = s0.exercise_id))) 0
        (t.filter (fun (r : LocalSet) => r.id ≠ s0.id))
    rw [hfinal]
    have hcommute : ((t.filter (fun r => r.id ≠ s0.id)).map
        (localRenumFun 0 (List.insertionSort leSetNum
          ((t.filter (fun r => r.id ≠ s0.id)).filter
            (fun r => r.exercise_id = s0.exercise_id))))).filter
        (fun r => r.exercise_id = s0.exercise_id) =
        ((t.filter (fun r => r.id ≠ s0.id)).filter
          (fun r => r.exercise_id = s0.exercise_id)).map
          (localRenumFun 0 (List.insertionSort leSetNum
            ((t.filter (fun r => r.id ≠ s0.id)).filter
              (fun r => r.exercise_id = s0.exercise_id)))) := by
      rw [List.filter_map]
      congr 1
      apply List.filter_congr
      intro r _
      simp [Function.comp, localRenumFun_exid]
    rw [hcommute]
    have hmapnum : (((List.insertionSort leSetNum ((t.filter (fun r => r.id ≠ s0.id)).filter
        (fun r => r.exercise_id = s0.exercise_id))).map
          (localRenumFun 0 (List.insertionSort leSetNum
            ((t.filter (fun r => r.id ≠ s0.id)).filter
              (fun r => r.exercise_id = s0.exercise_id))))).map
          (fun r => r.set_number)) =
        List.range' 1 (List.insertionSort leSetNum ((t.filter (fun r => r.id ≠ s0.id)).filter
          (fun r => r.exercise_id = s0.exercise_id))).length := by
      apply List.ext_getElem
      · simp
      · intro k h1 h2
        have hk : k < (List.insertionSort leSetNum ((t.filter (fun r => r.id ≠ s0.id)).filter
            (fun r => r.exercise_id = s0.exercise_id))).length := by
          simpa using h1
        simp only [List.getElem_map]
        rw [localRenumFun_pos _ 0 k hk hremnodup]
        simp only [List.getElem_range']
        show 0 + k + 1 = 1 + 1 * k
        omega
    have hfin : List.Perm
        ((((t.filter (fun r => r.id ≠ s0.id)).filter
          (fun r => r.exercise_id = s0.exercise_id)).map
          (localRenumFun 0 (List.insertionSort leSetNum
            ((t.filter (fun r => r.id ≠ s0.id)).filter
              (fun r => r.exercise_id = s0.exercise_id))))).map
          (fun r => r.set_number))
        (List.range' 1 (List.insertionSort leSetNum ((t.filter (fun r => r.id ≠ s0.id)).filter
          (fun r => r.exercise_id = s0.exercise_id))).length) := by
      rw [← hmapnum]
      exact (hremperm.symm.map _).map _
    rw [← hkey]
    exact hfin
  · intro rows k hk r hrmem hrid
    rw [applyOrdFrom_eq_map] at hrmem
    rcases List.mem_map.mp hrmem with ⟨r0, _, rfl⟩
    rw [ordFun_id_eq gSetNumber gSetNumber_id _ 0 r0] at hrid
    rw [ordFun_pos gSetNumber gSetNumber_id _ 0 k hk r0 hremnodup hrid]
    show 0 + k + 1 = k + 1
    omega
  · intro ids2 rows
    exact applyOrdFrom_idem gSetNumber gSetNumber_id gSetNumber_over ids2 0 rows

/-- Witness for C6: deleting set `b` (number 2 of 3) from exercise `E1`
renumbers the survivors to 1..2 and enqueues `renumber_sets` over their
ids. -/
theorem c6_renumber_density_witness :
    (([⟨"a", "E1", 1, ""⟩, ⟨"b", "E1", 2, ""⟩, ⟨"c", "E1", 3, ""⟩] :
        List LocalSet).map LocalSet.id).Nodup ∧
    (⟨"b", "E1", 2, ""⟩ : LocalSet) ∈
      ([⟨"a", "E1", 1, ""⟩, ⟨"b", "E1", 2, ""⟩, ⟨"c", "E1", 3, ""⟩] : List LocalSet) ∧
    (∃ rids : List String,
      (deleteSet "b" "E1"
        [⟨"a", "E1", 1, ""⟩, ⟨"b", "E1", 2, ""⟩, ⟨"c", "E1", 3, ""⟩]).enqueued =
        [(OpName.delete_set, payloadDeleteSet "b"),
         (OpName.renumber_sets, payloadRenumber rids)] ∧
      rids.Nodup ∧
      rids.length = (([⟨"a", "E1", 1, ""⟩, ⟨"b", "E1", 2, ""⟩, ⟨"c", "E1", 3, ""⟩] :
          List LocalSet).filter (fun r => r.exercise_id = "E1")).length - 1 ∧
      List.Perm
        (((deleteSet "b" "E1"
            [⟨"a", "E1", 1, ""⟩, ⟨"b", "E1", 2, ""⟩, ⟨"c", "E1", 3, ""⟩]).localSets.filter
            (fun r => r.exercise_id = "E1")).map (fun r => r.set_number))
        (List.range' 1 ((([⟨"a", "E1", 1, ""⟩, ⟨"b", "E1", 2, ""⟩, ⟨"c", "E1", 3, ""⟩] :
          List LocalSet).filter (fun r => r.exercise_id = "E1")).length - 1)) ∧
      (∀ (rows : List Row) (k : Nat) (hk : k < rids.length) (r : Row),
        r ∈ applyOrdFrom gSetNumber 0 rids rows → r.id = some rids[k] →
          r.set_number = k + 1) ∧
      (∀ (ids2 : List String) (rows : List Row),
        applyOrdFrom gSetNumber 0 ids2 (applyOrdFrom gSetNumber 0 ids2 rows) =
          applyOrdFrom gSetNumber 0 ids2 rows)) :=
  ⟨by decide, by decide,
    c6_renumber_density [⟨"a", "E1", 1, ""⟩, ⟨"b", "E1", 2, ""⟩, ⟨"c", "E1", 3, ""⟩]
      "b" "E1" ⟨"b", "E1", 2, ""⟩ (by decide) (by decide) rfl rfl⟩


example :
    (deleteSet "b" "E1"
      [⟨"a", "E1", 1, ""⟩, ⟨"b", "E1", 2, ""⟩, ⟨"c", "E1", 3, ""⟩]).localSets =
      [⟨"a", "E1", 1, ""⟩, ⟨"c", "E1", 2, ""⟩] := by decide

example :
    (deleteSet "b" "E1"
      [⟨"a", "E1", 1, ""⟩, ⟨"b", "E1", 2, ""⟩, ⟨"c", "E1", 3, ""⟩]).enqueued =
      [(OpName.delete_set, payloadDeleteSet "b"),
       (OpName.renumber_sets, payloadRenumber ["a", "c"])] := by decide

example :
    (tick pureExec false true
      [⟨some 2, 20, OpName.insert_set, emptyPayload, OpStatus.queued, none⟩,
       ⟨some 1, 10, OpName.delete_set, emptyPayload, OpStatus.queued, none⟩]).events =
      [Event.dispatch ⟨some 1, 10, OpName.delete_set, emptyPayload, OpStatus.queued, none⟩,
       Event.markedRetry 1,
       Event.dispatch ⟨some 2, 20, OpName.insert_set, emptyPayload, OpStatus.queued, none⟩,
       Event.deleted 2] := by decide

example :
    (tick pureExec false true
      [⟨some 2, 20, OpName.insert_set, emptyPayload, OpStatus.queued, none⟩,
       ⟨some 1, 10, OpName.delete_set, emptyPayload, OpStatus.queued, none⟩]).table =
      [⟨some 1, 10, OpName.delete_set, emptyPayload, OpStatus.retry,
        some "delete_set missing set_id"⟩] := by decide

example :
    (tick pureExec false true
      [⟨some 2, 20, OpName.insert_set, emptyPayload, OpStatus.queued, none⟩,
       ⟨some 1, 10, OpName.delete_set, emptyPayload, OpStatus.queued, none⟩]).status =
      some "Synced (with 1 retrying)" := by decide

example :
    (processOp OpName.delete_session { emptyPayload with session_id := some "S1" }
      ⟨[], [], [], [⟨some "S1", "", "", "", "", "", 0, 0, ""⟩],
        [⟨some "E1", "", "", "S1", "", "", 0, 0, ""⟩],
        [⟨some "T1", "", "", "", "E1", "", 1, 0, ""⟩], [], []⟩).calls =
      [RCall.selectExercisesBySession "S1",
       RCall.deleteIn "workout_sets" "exercise_id" ["E1"],
       RCall.deleteEq "workout_exercises" "session_id" "S1",
       RCall.deleteEq "workout_sessions" "id" "S1"] := by decide

example :
    (processOp OpName.delete_session { emptyPayload with session_id := some "S1" }
      ⟨[], [], [], [⟨some "S1", "", "", "", "", "", 0, 0, ""⟩],
        [⟨some "E1", "", "", "S1", "", "", 0, 0, ""⟩],
        [⟨some "T1", "", "", "", "E1", "", 1, 0, ""⟩], [], []⟩).remote =
      emptyRemote := by decide

example :
    (processOp OpName.renumber_sets (payloadRenumber ["x", "y"])
      ⟨[], [], [], [], [],
        [⟨some "y", "", "", "", "E1", "", 9, 0, ""⟩,
         ⟨some "x", "", "", "", "E1", "", 3, 0, ""⟩], [], []⟩).remote.workout_sets =
      [⟨some "y", "", "", "", "E1", "", 2, 0, ""⟩,
       ⟨some "x", "", "", "", "E1", "", 1, 0, ""⟩] := by decide

example :
    (enqueue 42 OpName.upsert_daily emptyPayload ⟨[], 7⟩).rows =
      [⟨some 7, 42, OpName.upsert_daily, emptyPayload, OpStatus.queued, none⟩] ∧
    (enqueue 42 OpName.upsert_daily emptyPayload ⟨[], 7⟩).nextId = 8 := by decide

end Rebuild60
